import Mathlib

/-!
Shallow embedding of the dragonpy / dragon C-subset compiler pipeline:
the token model (src/dragonpy/token.py), the lexer (src/dragonpy/lexer.py),
the recursive-descent parser (src/dragonpy/parser.py), the code generator
(src/dragonpy/gen.py), the minimal-variant parser (src/dragon/parser.py),
and a small straight-line x86-64 instruction semantics used to evaluate
the emitted code.
-/

/-- Source position, from dragonpy/token.py SourcePos. -/
structure SourcePos where
  filename : String
  line : Nat
  col : Nat
deriving Repr, DecidableEq

/-- Token kinds: exactly the members of dragonpy/token.py TokenType
(lines 15 to 56), in source order.  Note the enum defines no KwIf, KwElse,
KwFor, KwWhile, KwDo, KwBreak, KwContinue, PlusPlus, MinusMinus, Comma,
Question or Colon member, although dragonpy/lexer.py refers to all of
those names. -/
inductive TokenType where
  | KwInt | KwReturn | Identifier | OpenParen | CloseParen | OpenBrace | CloseBrace
  | DecimalConstant | Semicolon | Minus | Tilde | Bang | Plus | Star | Slash
  | AmpAmp | PipePipe | EqualEqual | BangEqual | Less | LessEqual | Greater | GreaterEqual
  | Percent | Amp | Pipe | Caret | LessLess | GreaterGreater | Equal
  | PlusEqual | MinusEqual | SlashEqual | StarEqual | PercentEqual
  | LessLessEqual | GreaterGreaterEqual | AmpEqual | PipeEqual | CaretEqual
deriving Repr, DecidableEq

/-- Names of the members of dragonpy/token.py TokenType, as written in the
source (lines 16 to 55). -/
def tokenTypeMemberNames : List String :=
  ["KwInt", "KwReturn", "Identifier", "OpenParen", "CloseParen", "OpenBrace",
   "CloseBrace", "DecimalConstant", "Semicolon", "Minus", "Tilde", "Bang",
   "Plus", "Star", "Slash", "AmpAmp", "PipePipe", "EqualEqual", "BangEqual",
   "Less", "LessEqual", "Greater", "GreaterEqual", "Percent", "Amp", "Pipe",
   "Caret", "LessLess", "GreaterGreater", "Equal", "PlusEqual", "MinusEqual",
   "SlashEqual", "StarEqual", "PercentEqual", "LessLessEqual",
   "GreaterGreaterEqual", "AmpEqual", "PipeEqual", "CaretEqual"]

/-- The keyword table of dragonpy/lexer.py (_KEYWORDS, lines 11 to 21):
each source word paired with the name of the TokenType member the table
refers to. -/
def dragonpyKeywordTable : List (String × String) :=
  [("int", "KwInt"), ("return", "KwReturn"), ("if", "KwIf"), ("else", "KwElse"),
   ("for", "KwFor"), ("while", "KwWhile"), ("do", "KwDo"), ("break", "KwBreak"),
   ("continue", "KwContinue")]

/-- Names of the TokenType members referred to by the operator and
punctuation branches of dragonpy/lexer.py Lexer._lex (lines 52 to 178),
in the order the branches appear. -/
def lexerBranchKindNames : List String :=
  ["OpenBrace", "CloseBrace", "OpenParen", "CloseParen", "Semicolon",
   "MinusMinus", "Minus", "Tilde", "BangEqual", "Bang", "PlusEqual",
   "PlusPlus", "Plus", "StarEqual", "Star", "SlashEqual", "Slash",
   "AmpAmp", "AmpEqual", "Amp", "PipePipe", "PipeEqual", "Pipe",
   "EqualEqual", "Equal", "LessEqual", "LessLessEqual", "LessLess", "Less",
   "GreaterEqual", "GreaterGreaterEqual", "GreaterGreater", "Greater",
   "PercentEqual", "Percent", "CaretEqual", "Caret", "Comma", "Question",
   "Colon", "Identifier", "DecimalConstant"]

/-- Base token, from dragonpy/token.py Token. -/
structure Token where
  type : TokenType
  text : String
  pos : SourcePos
deriving Repr, DecidableEq

/-- Identifier token, from dragonpy/token.py IdentifierToken (subclass of
Token carrying the identifier string). -/
structure IdentifierToken extends Token where
  value : String
deriving Repr, DecidableEq

/-- Decimal-constant token, from dragonpy/token.py DecimalConstantToken
(subclass of Token carrying the parsed non-negative integer). -/
structure DecimalConstantToken extends Token where
  value : Nat
deriving Repr, DecidableEq

/-- A token as produced by the lexer: either a plain Token or one of the
two payload-carrying subclasses. -/
inductive AnyToken where
  | plain (t : Token)
  | ident (t : IdentifierToken)
  | num (t : DecimalConstantToken)
deriving Repr, DecidableEq

def AnyToken.type : AnyToken → TokenType
  | .plain t => t.type
  | .ident t => t.type
  | .num t => t.type

def AnyToken.pos : AnyToken → SourcePos
  | .plain t => t.pos
  | .ident t => t.pos
  | .num t => t.pos

/-- Models the unchecked cast(IdentifierToken, tok) of parser.py: for a
token that really is an IdentifierToken it returns it; otherwise Python
would fail later on the .value attribute access, modelled with an empty
payload (the parser only applies the cast after expecting the Identifier
kind, which the lexer produces as IdentifierToken). -/
def AnyToken.asIdent : AnyToken → IdentifierToken
  | .ident t => t
  | .plain t => ⟨t, ""⟩
  | .num t => ⟨t.toToken, ""⟩

/-- Models the unchecked cast(DecimalConstantToken, tok) of parser.py. -/
def AnyToken.asNum : AnyToken → DecimalConstantToken
  | .num t => t
  | .plain t => ⟨t, 0⟩
  | .ident t => ⟨t.toToken, 0⟩

/-- Unary operator kinds, from dragonpy/ast.py UnaryOpKind. -/
inductive UnaryOpKind where
  | Negation | BitwiseComplement | LogicalNegation | Increment | Decrement
deriving Repr, DecidableEq

/-- UnaryOpKind.get of ast.py.  In the source the later match arms test
TokenType.PlusPlus and TokenType.MinusMinus, names token.py does not
define; evaluating those value patterns would raise AttributeError.  They
are reached for no kind the parser passes in (it matches only Minus,
Tilde, Bang first), and fold into the default arm here. -/
def unaryOpKindGet : TokenType → Option UnaryOpKind
  | .Minus => some .Negation
  | .Tilde => some .BitwiseComplement
  | .Bang => some .LogicalNegation
  | _ => none

/-- Binary operator kinds, from dragonpy/ast.py BinaryOpKind. -/
inductive BinaryOpKind where
  | Addition | Subtraction | Multiplication | Division
  | LessThan | LessThanOrEqual | GreaterThan | GreaterThanOrEqual
  | Equal | NotEqual | LogicalAnd | LogicalOr | Modulo
  | BitwiseAnd | BitwiseOr | BitwiseXor | BitwiseLeftShift | BitwiseRightShift
deriving Repr, DecidableEq

/-- BinaryOpKind.get of ast.py (all referenced members exist). -/
def binaryOpKindGet : TokenType → Option BinaryOpKind
  | .Plus => some .Addition
  | .Minus => some .Subtraction
  | .Star => some .Multiplication
  | .Slash => some .Division
  | .Less => some .LessThan
  | .LessEqual => some .LessThanOrEqual
  | .Greater => some .GreaterThan
  | .GreaterEqual => some .GreaterThanOrEqual
  | .EqualEqual => some .Equal
  | .BangEqual => some .NotEqual
  | .AmpAmp => some .LogicalAnd
  | .PipePipe => some .LogicalOr
  | .Percent => some .Modulo
  | .Amp => some .BitwiseAnd
  | .Pipe => some .BitwiseOr
  | .Caret => some .BitwiseXor
  | .LessLess => some .BitwiseLeftShift
  | .GreaterGreater => some .BitwiseRightShift
  | _ => none

/-- Assignment kinds, from dragonpy/ast.py AssignKind. -/
inductive AssignKind where
  | Simple | Add | Subtract | Multiply | Divide | Modulo
  | BitwiseLeftShift | BitwiseRightShift | BitwiseAnd | BitwiseOr | BitwiseXor
deriving Repr, DecidableEq

/-- AssignKind.get of ast.py; the source asserts on any other kind, here
the default arm is modelled as none (the parser only calls it on matched
assignment-operator kinds). -/
def assignKindGet : TokenType → Option AssignKind
  | .Equal => some .Simple
  | .PlusEqual => some .Add
  | .MinusEqual => some .Subtract
  | .StarEqual => some .Multiply
  | .SlashEqual => some .Divide
  | .PercentEqual => some .Modulo
  | .LessLessEqual => some .BitwiseLeftShift
  | .GreaterGreaterEqual => some .BitwiseRightShift
  | .AmpEqual => some .BitwiseAnd
  | .PipeEqual => some .BitwiseOr
  | .CaretEqual => some .BitwiseXor
  | _ => none

/-- Postfix operator kinds, from dragonpy/ast.py PostfixOpKind. -/
inductive PostfixOpKind where
  | Increment | Decrement
deriving Repr, DecidableEq

/-- Expressions, from dragonpy/ast.py.  Each constructor mirrors one of
the Exp dataclasses with its fields. -/
inductive Exp where
  | constantExp (value : DecimalConstantToken)
  | unaryOpExp (op : UnaryOpKind) (exp : Exp)
  | binaryOpExp (op : BinaryOpKind) (left : Exp) (right : Exp)
  | assignExp (left : IdentifierToken) (kind : AssignKind) (right : Exp)
  | commaExp (left : Exp) (right : Exp)
  | postfixExp (exp : Exp) (op : PostfixOpKind)
  | conditionalExp (cond : Exp) (trueExp : Exp) (falseExp : Exp)
  | varExp (name : IdentifierToken)
deriving Repr, DecidableEq

/-- Declaration initializer, from dragonpy/ast.py Initializer. -/
structure Initializer where
  equalToken : AnyToken
  exp : Exp
deriving Repr, DecidableEq

/-- Statements, from dragonpy/ast.py.  Each constructor mirrors one of
the Statement dataclasses with its fields. -/
inductive Statement where
  | returnStatement (returnKw : AnyToken) (exp : Exp) (semicolon : AnyToken)
  | declareStatement (typeKw : AnyToken) (identifier : IdentifierToken)
      (initializer : Option Initializer) (semicolon : AnyToken)
  | expStatement (exp : Exp) (semicolon : AnyToken)
  | ifStatement (ifKw : AnyToken) (lparen : AnyToken) (condition : Exp)
      (rparen : AnyToken) (thenStatement : Statement)
      (elseStatement : Option Statement)
  | blockStatement (lbrace : AnyToken) (statements : List Statement)
      (rbrace : AnyToken)
deriving Repr

/-- Function, from dragonpy/ast.py: name, the surrounding tokens and the
body statements. -/
structure Function where
  intKw : AnyToken
  id : IdentifierToken
  openParen : AnyToken
  closeParen : AnyToken
  openBrace : AnyToken
  statements : List Statement
  closeBrace : AnyToken
deriving Repr

/-- Program, from dragonpy/ast.py: a single function. -/
structure Program where
  function : Function
deriving Repr

/-- Lexical errors.  unexpectedChar models the ValueError of lexer.py line
178; undefinedMember models the AttributeError Python raises where the
lexer refers to a TokenType member that token.py does not define (the
keyword table entries beyond int and return, and the MinusMinus, PlusPlus,
Comma, Question and Colon branches); fuelOut is an artificial bound never
reached with the fuel the driver supplies. -/
inductive LexErr where
  | unexpectedChar (c : Char)
  | undefinedMember (name : String)
  | fuelOut
deriving Repr, DecidableEq

/-- Line and column update of Lexer._advance (lexer.py lines 220 to 228):
the column advances for every consumed byte and a newline resets it. -/
def advanceLC (c : Char) (line col : Nat) : Nat × Nat :=
  if c = '\n' then (line + 1, 1) else (line, col + 1)

/-- Whitespace skipping of Lexer._skip_whitespace. -/
def skipWhitespace : List Char → Nat → Nat → List Char × Nat × Nat
  | [], line, col => ([], line, col)
  | c :: rest, line, col =>
    if c.isWhitespace then
      let (l2, c2) := advanceLC c line col
      skipWhitespace rest l2 c2
    else (c :: rest, line, col)

/-- Consumes characters while the predicate holds, returning them with the
rest and the updated position; the loop bodies of _lex_identifier_or_keyword
and _lex_decimal_constant. -/
def takeChars (p : Char → Bool) : List Char → Nat → Nat → List Char × List Char × Nat × Nat
  | [], line, col => ([], [], line, col)
  | c :: rest, line, col =>
    if p c then
      let (l2, c2) := advanceLC c line col
      let (taken, rest2, l3, c3) := takeChars p rest l2 c2
      (c :: taken, rest2, l3, c3)
    else ([], c :: rest, line, col)

/-- Decimal digits to the integer value, as int(text) does for digit-only
text. -/
def digitsToNat (cs : List Char) : Nat :=
  cs.foldl (fun acc c => acc * 10 + (c.toNat - 48)) 0

/-- Keyword lookup against _KEYWORDS of lexer.py (lines 11 to 21).  The
entries for if, else, for, while, do, break and continue name TokenType
members that do not exist; in Python the dict literal itself raises
AttributeError when the module is imported, which is modelled here as an
error surfacing when the entry is consulted. -/
def keywordLookup : String → Except LexErr (Option TokenType)
  | "int" => .ok (some .KwInt)
  | "return" => .ok (some .KwReturn)
  | "if" => .error (.undefinedMember "KwIf")
  | "else" => .error (.undefinedMember "KwElse")
  | "for" => .error (.undefinedMember "KwFor")
  | "while" => .error (.undefinedMember "KwWhile")
  | "do" => .error (.undefinedMember "KwDo")
  | "break" => .error (.undefinedMember "KwBreak")
  | "continue" => .error (.undefinedMember "KwContinue")
  | _ => .ok none

/-- Builds a plain token as Lexer._add_token does. -/
def mkPlainTok (t : TokenType) (text : String) (pos : SourcePos) : AnyToken :=
  .plain ⟨t, text, pos⟩

/-- One step of Lexer._lex: skip whitespace, snapshot the start position,
read a character and branch on it.  Returns none at end of input
(StopIteration).  Branches whose TokenType member does not exist return
the undefinedMember error. -/
def lexOne (filename : String) (cs : List Char) (line col : Nat) :
    Except LexErr (Option (AnyToken × List Char × Nat × Nat)) :=
  let (cs, line, col) := skipWhitespace cs line col
  let startPos : SourcePos := ⟨filename, line, col⟩
  match cs with
  | [] => .ok none
  | c :: rest =>
    let (line, col) := advanceLC c line col
    match c with
    | '{' => .ok (some (mkPlainTok .OpenBrace "\x7b" startPos, rest, line, col))
    | '}' => .ok (some (mkPlainTok .CloseBrace "\x7d" startPos, rest, line, col))
    | '(' => .ok (some (mkPlainTok .OpenParen "(" startPos, rest, line, col))
    | ')' => .ok (some (mkPlainTok .CloseParen ")" startPos, rest, line, col))
    | ';' => .ok (some (mkPlainTok .Semicolon ";" startPos, rest, line, col))
    | '-' =>
      match rest with
      | '-' :: _ => .error (.undefinedMember "MinusMinus")
      | _ => .ok (some (mkPlainTok .Minus "-" startPos, rest, line, col))
    | '~' => .ok (some (mkPlainTok .Tilde "~" startPos, rest, line, col))
    | '!' =>
      match rest with
      | '=' :: r2 =>
        let (line, col) := advanceLC '=' line col
        .ok (some (mkPlainTok .BangEqual "!=" startPos, r2, line, col))
      | _ => .ok (some (mkPlainTok .Bang "!" startPos, rest, line, col))
    | '+' =>
      match rest with
      | '=' :: r2 =>
        let (line, col) := advanceLC '=' line col
        .ok (some (mkPlainTok .PlusEqual "+=" startPos, r2, line, col))
      | '+' :: _ => .error (.undefinedMember "PlusPlus")
      | _ => .ok (some (mkPlainTok .Plus "+" startPos, rest, line, col))
    | '*' =>
      match rest with
      | '=' :: r2 =>
        let (line, col) := advanceLC '=' line col
        .ok (some (mkPlainTok .StarEqual "*=" startPos, r2, line, col))
      | _ => .ok (some (mkPlainTok .Star "*" startPos, rest, line, col))
    | '/' =>
      match rest with
      | '=' :: r2 =>
        let (line, col) := advanceLC '=' line col
        .ok (some (mkPlainTok .SlashEqual "/=" startPos, r2, line, col))
      | _ => .ok (some (mkPlainTok .Slash "/" startPos, rest, line, col))
    | '&' =>
      match rest with
      | '&' :: r2 =>
        let (line, col) := advanceLC '&' line col
        .ok (some (mkPlainTok .AmpAmp "&&" startPos, r2, line, col))
      | '=' :: r2 =>
        let (line, col) := advanceLC '=' line col
        .ok (some (mkPlainTok .AmpEqual "&=" startPos, r2, line, col))
      | _ => .ok (some (mkPlainTok .Amp "&" startPos, rest, line, col))
    | '|' =>
      match rest with
      | '|' :: r2 =>
        let (line, col) := advanceLC '|' line col
        .ok (some (mkPlainTok .PipePipe "||" startPos, r2, line, col))
      | '=' :: r2 =>
        let (line, col) := advanceLC '=' line col
        .ok (some (mkPlainTok .PipeEqual "|=" startPos, r2, line, col))
      | _ => .ok (some (mkPlainTok .Pipe "|" startPos, rest, line, col))
    | '=' =>
      match rest with
      | '=' :: r2 =>
        let (line, col) := advanceLC '=' line col
        .ok (some (mkPlainTok .EqualEqual "==" startPos, r2, line, col))
      | _ => .ok (some (mkPlainTok .Equal "=" startPos, rest, line, col))
    | '<' =>
      match rest with
      | '=' :: r2 =>
        let (line, col) := advanceLC '=' line col
        .ok (some (mkPlainTok .LessEqual "<=" startPos, r2, line, col))
      | '<' :: r2 =>
        let (line, col) := advanceLC '<' line col
        match r2 with
        | '=' :: r3 =>
          let (line, col) := advanceLC '=' line col
          .ok (some (mkPlainTok .LessLessEqual "<<=" startPos, r3, line, col))
        | _ => .ok (some (mkPlainTok .LessLess "<<" startPos, r2, line, col))
      | _ => .ok (some (mkPlainTok .Less "<" startPos, rest, line, col))
    | '>' =>
      match rest with
      | '=' :: r2 =>
        let (line, col) := advanceLC '=' line col
        .ok (some (mkPlainTok .GreaterEqual ">=" startPos, r2, line, col))
      | '>' :: r2 =>
        let (line, col) := advanceLC '>' line col
        match r2 with
        | '=' :: r3 =>
          let (line, col) := advanceLC '=' line col
          .ok (some (mkPlainTok .GreaterGreaterEqual ">>=" startPos, r3, line, col))
        | _ => .ok (some (mkPlainTok .GreaterGreater ">>" startPos, r2, line, col))
      | _ => .ok (some (mkPlainTok .Greater ">" startPos, rest, line, col))
    | '%' =>
      match rest with
      | '=' :: r2 =>
        let (line, col) := advanceLC '=' line col
        .ok (some (mkPlainTok .PercentEqual "%=" startPos, r2, line, col))
      | _ => .ok (some (mkPlainTok .Percent "%" startPos, rest, line, col))
    | '^' =>
      match rest with
      | '=' :: r2 =>
        let (line, col) := advanceLC '=' line col
        .ok (some (mkPlainTok .CaretEqual "^=" startPos, r2, line, col))
      | _ => .ok (some (mkPlainTok .Caret "^" startPos, rest, line, col))
    | ',' => .error (.undefinedMember "Comma")
    | '?' => .error (.undefinedMember "Question")
    | ':' => .error (.undefinedMember "Colon")
    | c =>
      if c.isAlpha then
        let (taken, rest2, line2, col2) := takeChars Char.isAlphanum rest line col
        let text := String.mk (c :: taken)
        match keywordLookup text with
        | .error e => .error e
        | .ok (some t) => .ok (some (mkPlainTok t text startPos, rest2, line2, col2))
        | .ok none =>
          .ok (some (.ident ⟨⟨.Identifier, text, startPos⟩, text⟩, rest2, line2, col2))
      else if c.isDigit then
        let (taken, rest2, line2, col2) := takeChars Char.isDigit rest line col
        let text := String.mk (c :: taken)
        .ok (some (.num ⟨⟨.DecimalConstant, text, startPos⟩, digitsToNat (c :: taken)⟩,
                   rest2, line2, col2))
      else .error (.unexpectedChar c)

/-- Repeated lexing until end of input; the fuel bounds the recursion and
exceeds the source length, which each produced token strictly consumes. -/
def lexAll (filename : String) : Nat → List Char → Nat → Nat → Except LexErr (List AnyToken)
  | 0, _, _, _ => .error .fuelOut
  | n + 1, cs, line, col =>
    match lexOne filename cs line col with
    | .error e => .error e
    | .ok none => .ok []
    | .ok (some (t, rest, line2, col2)) =>
      match lexAll filename n rest line2 col2 with
      | .error e => .error e
      | .ok ts => .ok (t :: ts)

/-- Lexes a whole source string starting at line 1, column 1 as
Lexer.__init__ sets up. -/
def dragonpyLex (source filename : String) : Except LexErr (List AnyToken) :=
  lexAll filename (source.length + 1) source.data 1 1

/-- Parse errors, mirroring the ParseError messages of dragonpy/parser.py.
eofExpected models _advance_nonnull failing at end of input;
unexpectedToken models _expect on a wrong kind; expectedLvalue the
assignment lvalue check; assertFailed the assert statements on operator
kind lookups; expectedExpression the factor fallthrough;
expectedExpressionAtEof the factor fallthrough when no token remains
(where the source would fail reading tok.pos from None); trailingToken
the end-of-file check of parse(); fuelOut is an artificial recursion
bound never reached with adequate fuel. -/
inductive ParseErr where
  | eofExpected (expected : Option TokenType)
  | unexpectedToken (pos : SourcePos) (got : TokenType) (expected : TokenType)
  | expectedLvalue
  | assertFailed
  | expectedExpression (pos : SourcePos) (got : TokenType)
  | expectedExpressionAtEof
  | trailingToken (pos : SourcePos) (got : TokenType)
  | fuelOut
deriving Repr, DecidableEq

/-- Parser._expect on the pending token stream. -/
def expectTok (type : TokenType) : List AnyToken → Except ParseErr (AnyToken × List AnyToken)
  | [] => .error (.eofExpected (some type))
  | t :: rest =>
    if t.type = type then .ok (t, rest)
    else .error (.unexpectedToken t.pos t.type type)

/-- Parser._match: pops and returns the head token iff its kind is among
the given kinds. -/
def matchTok (types : List TokenType) : List AnyToken → Option AnyToken × List AnyToken
  | [] => (none, [])
  | t :: rest => if t.type ∈ types then (some t, rest) else (none, t :: rest)

/-- Parser._look: tests the head token kind without consuming. -/
def lookTok (type : TokenType) : List AnyToken → Bool
  | [] => false
  | t :: _ => t.type = type

/-- Result of one parser production: the value and the remaining tokens. -/
abbrev PRes (α : Type) := Except ParseErr (α × List AnyToken)

mutual

/-- Parser._parse_exp. -/
def parseExpF : Nat → List AnyToken → PRes Exp
  | 0, _ => .error .fuelOut
  | n + 1, ts => parseAssignF n ts

/-- Parser._parse_assign_exp: parses a logical-or expression, then an
optional right-associative assignment whose target must already be a
VarExp. -/
def parseAssignF : Nat → List AnyToken → PRes Exp
  | 0, _ => .error .fuelOut
  | n + 1, ts =>
    match parseLogicalOrF n ts with
    | .error e => .error e
    | .ok (exp, ts) =>
      match matchTok [.Equal, .PlusEqual, .MinusEqual, .SlashEqual, .StarEqual,
                      .PercentEqual, .LessLessEqual, .GreaterGreaterEqual,
                      .AmpEqual, .PipeEqual, .CaretEqual] ts with
      | (none, ts) => .ok (exp, ts)
      | (some tok, ts) =>
        match exp with
        | .varExp name =>
          match assignKindGet tok.type with
          | none => .error .assertFailed
          | some kind =>
            match parseAssignF n ts with
            | .error e => .error e
            | .ok (rhs, ts) => .ok (.assignExp name kind rhs, ts)
        | _ => .error .expectedLvalue

/-- Parser._parse_logical_or_exp. -/
def parseLogicalOrF : Nat → List AnyToken → PRes Exp
  | 0, _ => .error .fuelOut
  | n + 1, ts =>
    match parseLogicalAndF n ts with
    | .error e => .error e
    | .ok (exp, ts) => parseLogicalOrLoopF n exp ts

/-- While loop of _parse_logical_or_exp. -/
def parseLogicalOrLoopF : Nat → Exp → List AnyToken → PRes Exp
  | 0, _, _ => .error .fuelOut
  | n + 1, exp, ts =>
    match matchTok [.PipePipe] ts with
    | (none, ts) => .ok (exp, ts)
    | (some _, ts) =>
      match parseLogicalAndF n ts with
      | .error e => .error e
      | .ok (rhs, ts) => parseLogicalOrLoopF n (.binaryOpExp .LogicalOr exp rhs) ts

/-- Parser._parse_logical_and_exp.  Note the source parses the operands
with _parse_equality_exp, not with a bitwise production. -/
def parseLogicalAndF : Nat → List AnyToken → PRes Exp
  | 0, _ => .error .fuelOut
  | n + 1, ts =>
    match parseEqualityF n ts with
    | .error e => .error e
    | .ok (exp, ts) => parseLogicalAndLoopF n exp ts

/-- While loop of _parse_logical_and_exp. -/
def parseLogicalAndLoopF : Nat → Exp → List AnyToken → PRes Exp
  | 0, _, _ => .error .fuelOut
  | n + 1, exp, ts =>
    match matchTok [.AmpAmp] ts with
    | (none, ts) => .ok (exp, ts)
    | (some _, ts) =>
      match parseEqualityF n ts with
      | .error e => .error e
      | .ok (rhs, ts) => parseLogicalAndLoopF n (.binaryOpExp .LogicalAnd exp rhs) ts

/-- Parser._parse_bitwise_and_exp.  No live production invokes it; it is
kept because the source defines it (parser.py lines 182 to 188). -/
def parseBitwiseAndF : Nat → List AnyToken → PRes Exp
  | 0, _ => .error .fuelOut
  | n + 1, ts =>
    match parseBitwiseXorF n ts with
    | .error e => .error e
    | .ok (exp, ts) => parseBitwiseAndLoopF n exp ts

/-- While loop of _parse_bitwise_and_exp. -/
def parseBitwiseAndLoopF : Nat → Exp → List AnyToken → PRes Exp
  | 0, _, _ => .error .fuelOut
  | n + 1, exp, ts =>
    match matchTok [.Amp] ts with
    | (none, ts) => .ok (exp, ts)
    | (some _, ts) =>
      match parseBitwiseXorF n ts with
      | .error e => .error e
      | .ok (rhs, ts) => parseBitwiseAndLoopF n (.binaryOpExp .BitwiseAnd exp rhs) ts

/-- Parser._parse_bitwise_xor_exp (also dead code in the source). -/
def parseBitwiseXorF : Nat → List AnyToken → PRes Exp
  | 0, _ => .error .fuelOut
  | n + 1, ts =>
    match parseBitwiseOrF n ts with
    | .error e => .error e
    | .ok (exp, ts) => parseBitwiseXorLoopF n exp ts

/-- While loop of _parse_bitwise_xor_exp. -/
def parseBitwiseXorLoopF : Nat → Exp → List AnyToken → PRes Exp
  | 0, _, _ => .error .fuelOut
  | n + 1, exp, ts =>
    match matchTok [.Caret] ts with
    | (none, ts) => .ok (exp, ts)
    | (some _, ts) =>
      match parseBitwiseOrF n ts with
      | .error e => .error e
      | .ok (rhs, ts) => parseBitwiseXorLoopF n (.binaryOpExp .BitwiseXor exp rhs) ts

/-- Parser._parse_bitwise_or_exp (also dead code in the source). -/
def parseBitwiseOrF : Nat → List AnyToken → PRes Exp
  | 0, _ => .error .fuelOut
  | n + 1, ts =>
    match parseEqualityF n ts with
    | .error e => .error e
    | .ok (exp, ts) => parseBitwiseOrLoopF n exp ts

/-- While loop of _parse_bitwise_or_exp. -/
def parseBitwiseOrLoopF : Nat → Exp → List AnyToken → PRes Exp
  | 0, _, _ => .error .fuelOut
  | n + 1, exp, ts =>
    match matchTok [.Pipe] ts with
    | (none, ts) => .ok (exp, ts)
    | (some _, ts) =>
      match parseEqualityF n ts with
      | .error e => .error e
      | .ok (rhs, ts) => parseBitwiseOrLoopF n (.binaryOpExp .BitwiseOr exp rhs) ts

/-- Parser._parse_equality_exp. -/
def parseEqualityF : Nat → List AnyToken → PRes Exp
  | 0, _ => .error .fuelOut
  | n + 1, ts =>
    match parseRelationalF n ts with
    | .error e => .error e
    | .ok (exp, ts) => parseEqualityLoopF n exp ts

/-- While loop of _parse_equality_exp. -/
def parseEqualityLoopF : Nat → Exp → List AnyToken → PRes Exp
  | 0, _, _ => .error .fuelOut
  | n + 1, exp, ts =>
    match matchTok [.EqualEqual, .BangEqual] ts with
    | (none, ts) => .ok (exp, ts)
    | (some tok, ts) =>
      match binaryOpKindGet tok.type with
      | none => .error .assertFailed
      | some op =>
        match parseRelationalF n ts with
        | .error e => .error e
        | .ok (rhs, ts) => parseEqualityLoopF n (.binaryOpExp op exp rhs) ts

/-- Parser._parse_relational_exp. -/
def parseRelationalF : Nat → List AnyToken → PRes Exp
  | 0, _ => .error .fuelOut
  | n + 1, ts =>
    match parseShiftF n ts with
    | .error e => .error e
    | .ok (exp, ts) => parseRelationalLoopF n exp ts

/-- While loop of _parse_relational_exp. -/
def parseRelationalLoopF : Nat → Exp → List AnyToken → PRes Exp
  | 0, _, _ => .error .fuelOut
  | n + 1, exp, ts =>
    match matchTok [.Less, .LessEqual, .Greater, .GreaterEqual] ts with
    | (none, ts) => .ok (exp, ts)
    | (some tok, ts) =>
      match binaryOpKindGet tok.type with
      | none => .error .assertFailed
      | some op =>
        match parseShiftF n ts with
        | .error e => .error e
        | .ok (rhs, ts) => parseRelationalLoopF n (.binaryOpExp op exp rhs) ts

/-- Parser._parse_shift_exp. -/
def parseShiftF : Nat → List AnyToken → PRes Exp
  | 0, _ => .error .fuelOut
  | n + 1, ts =>
    match parseAdditiveF n ts with
    | .error e => .error e
    | .ok (exp, ts) => parseShiftLoopF n exp ts

/-- While loop of _parse_shift_exp. -/
def parseShiftLoopF : Nat → Exp → List AnyToken → PRes Exp
  | 0, _, _ => .error .fuelOut
  | n + 1, exp, ts =>
    match matchTok [.LessLess, .GreaterGreater] ts with
    | (none, ts) => .ok (exp, ts)
    | (some tok, ts) =>
      match binaryOpKindGet tok.type with
      | none => .error .assertFailed
      | some op =>
        match parseAdditiveF n ts with
        | .error e => .error e
        | .ok (rhs, ts) => parseShiftLoopF n (.binaryOpExp op exp rhs) ts

/-- Parser._parse_additive_exp. -/
def parseAdditiveF : Nat → List AnyToken → PRes Exp
  | 0, _ => .error .fuelOut
  | n + 1, ts =>
    match parseTermF n ts with
    | .error e => .error e
    | .ok (exp, ts) => parseAdditiveLoopF n exp ts

/-- While loop of _parse_additive_exp. -/
def parseAdditiveLoopF : Nat → Exp → List AnyToken → PRes Exp
  | 0, _, _ => .error .fuelOut
  | n + 1, exp, ts =>
    match matchTok [.Plus, .Minus] ts with
    | (none, ts) => .ok (exp, ts)
    | (some tok, ts) =>
      match binaryOpKindGet tok.type with
      | none => .error .assertFailed
      | some op =>
        match parseTermF n ts with
        | .error e => .error e
        | .ok (rhs, ts) => parseAdditiveLoopF n (.binaryOpExp op exp rhs) ts

/-- Parser._parse_term. -/
def parseTermF : Nat → List AnyToken → PRes Exp
  | 0, _ => .error .fuelOut
  | n + 1, ts =>
    match parseFactorF n ts with
    | .error e => .error e
    | .ok (exp, ts) => parseTermLoopF n exp ts

/-- While loop of _parse_term. -/
def parseTermLoopF : Nat → Exp → List AnyToken → PRes Exp
  | 0, _, _ => .error .fuelOut
  | n + 1, exp, ts =>
    match matchTok [.Star, .Slash, .Percent] ts with
    | (none, ts) => .ok (exp, ts)
    | (some tok, ts) =>
      match binaryOpKindGet tok.type with
      | none => .error .assertFailed
      | some op =>
        match parseFactorF n ts with
        | .error e => .error e
        | .ok (rhs, ts) => parseTermLoopF n (.binaryOpExp op exp rhs) ts

/-- Parser._parse_factor: parenthesized expression, unary operator
applied to a factor, decimal constant, or identifier.  The final
fallthrough raises the expected-expression parse error. -/
def parseFactorF : Nat → List AnyToken → PRes Exp
  | 0, _ => .error .fuelOut
  | n + 1, ts =>
    match matchTok [.OpenParen] ts with
    | (some _, ts) =>
      match parseExpF n ts with
      | .error e => .error e
      | .ok (exp, ts) =>
        match expectTok .CloseParen ts with
        | .error e => .error e
        | .ok (_, ts) => .ok (exp, ts)
    | (none, ts) =>
      match matchTok [.Minus, .Tilde, .Bang] ts with
      | (some tok, ts) =>
        match unaryOpKindGet tok.type with
        | none => .error .assertFailed
        | some op =>
          match parseFactorF n ts with
          | .error e => .error e
          | .ok (exp, ts) => .ok (.unaryOpExp op exp, ts)
      | (none, ts) =>
        match matchTok [.DecimalConstant] ts with
        | (some tok, ts) => .ok (.constantExp tok.asNum, ts)
        | (none, ts) =>
          match matchTok [.Identifier] ts with
          | (some tok, ts) => .ok (.varExp tok.asIdent, ts)
          | (none, ts) =>
            match ts with
            | [] => .error .expectedExpressionAtEof
            | t :: _ => .error (.expectedExpression t.pos t.type)

end

mutual

/-- Parser._parse_statement: return statement, declaration, else an
expression statement.  The source has no branch for if statements or
braced blocks. -/
def parseStatementF : Nat → List AnyToken → PRes Statement
  | 0, _ => .error .fuelOut
  | n + 1, ts =>
    if lookTok .KwReturn ts then parseReturnStatementF n ts
    else if lookTok .KwInt ts then parseDeclareStatementF n ts
    else parseExpStatementF n ts

/-- Parser._parse_return_statement. -/
def parseReturnStatementF : Nat → List AnyToken → PRes Statement
  | 0, _ => .error .fuelOut
  | n + 1, ts =>
    match expectTok .KwReturn ts with
    | .error e => .error e
    | .ok (kw, ts) =>
      match parseExpF n ts with
      | .error e => .error e
      | .ok (exp, ts) =>
        match expectTok .Semicolon ts with
        | .error e => .error e
        | .ok (semi, ts) => .ok (.returnStatement kw exp semi, ts)

/-- Parser._parse_declare_statement. -/
def parseDeclareStatementF : Nat → List AnyToken → PRes Statement
  | 0, _ => .error .fuelOut
  | n + 1, ts =>
    match expectTok .KwInt ts with
    | .error e => .error e
    | .ok (kw, ts) =>
      match expectTok .Identifier ts with
      | .error e => .error e
      | .ok (idTok, ts) =>
        match matchTok [.Equal] ts with
        | (some eqTok, ts) =>
          match parseExpF n ts with
          | .error e => .error e
          | .ok (exp, ts) =>
            match expectTok .Semicolon ts with
            | .error e => .error e
            | .ok (semi, ts) =>
              .ok (.declareStatement kw idTok.asIdent (some ⟨eqTok, exp⟩) semi, ts)
        | (none, ts) =>
          match expectTok .Semicolon ts with
          | .error e => .error e
          | .ok (semi, ts) => .ok (.declareStatement kw idTok.asIdent none semi, ts)

/-- Parser._parse_exp_statement. -/
def parseExpStatementF : Nat → List AnyToken → PRes Statement
  | 0, _ => .error .fuelOut
  | n + 1, ts =>
    match parseExpF n ts with
    | .error e => .error e
    | .ok (exp, ts) =>
      match expectTok .Semicolon ts with
      | .error e => .error e
      | .ok (semi, ts) => .ok (.expStatement exp semi, ts)

/-- Statement loop of Parser._parse_function: parse statements until the
closing brace is ahead. -/
def parseStmtsF : Nat → List AnyToken → PRes (List Statement)
  | 0, _ => .error .fuelOut
  | n + 1, ts =>
    if lookTok .CloseBrace ts then .ok ([], ts)
    else
      match parseStatementF n ts with
      | .error e => .error e
      | .ok (stmt, ts) =>
        match parseStmtsF n ts with
        | .error e => .error e
        | .ok (stmts, ts) => .ok (stmt :: stmts, ts)

end

/-- Parser._parse_function. -/
def parseFunctionF : Nat → List AnyToken → PRes Function
  | 0, _ => .error .fuelOut
  | n + 1, ts =>
    match expectTok .KwInt ts with
    | .error e => .error e
    | .ok (intKw, ts) =>
      match expectTok .Identifier ts with
      | .error e => .error e
      | .ok (idTok, ts) =>
        match expectTok .OpenParen ts with
        | .error e => .error e
        | .ok (op, ts) =>
          match expectTok .CloseParen ts with
          | .error e => .error e
          | .ok (cp, ts) =>
            match expectTok .OpenBrace ts with
            | .error e => .error e
            | .ok (ob, ts) =>
              match parseStmtsF n ts with
              | .error e => .error e
              | .ok (stmts, ts) =>
                match expectTok .CloseBrace ts with
                | .error e => .error e
                | .ok (cb, ts) =>
                  .ok (⟨intKw, idTok.asIdent, op, cp, ob, stmts, cb⟩, ts)

/-- Parser.parse: parse the single function, then fail on any remaining
token. -/
def parseProgramF (fuel : Nat) (ts : List AnyToken) : Except ParseErr Program :=
  match parseFunctionF fuel ts with
  | .error e => .error e
  | .ok (f, rest) =>
    match rest with
    | [] => .ok ⟨f⟩
    | t :: _ => .error (.trailingToken t.pos t.type)

/-- Compile errors of dragonpy/gen.py (CompileError messages): undeclared
variable, redeclared variable, and the not-an-lvalue check. -/
inductive CompileError where
  | notDeclared (name : String)
  | alreadyDeclared (name : String)
  | notAnLvalue
deriving Repr, DecidableEq

/-- One scope frame: the name-to-offset mapping of gen.py _VarTable,
modelled as an association list with dict update semantics. -/
abbrev Frame := List (String × Int)

/-- Dictionary membership and lookup on a frame. -/
def frameLookup : Frame → String → Option Int
  | [], _ => none
  | (k, v) :: rest, name => if k = name then some v else frameLookup rest name

/-- Dictionary assignment on a frame: update in place when present,
append otherwise. -/
def framePut : Frame → String → Int → Frame
  | [], name, off => [(name, off)]
  | (k, v) :: rest, name, off =>
    if k = name then (k, off) :: rest else (k, v) :: framePut rest name off

/-- Generator state, from the Compiler attributes (gen.py lines 40 to 43):
label counter, scope stack (innermost frame last, with the source _scope
index always equal to the length minus one), and stack index. -/
structure CState where
  labelCounter : Nat
  scopes : List Frame
  stackIndex : Int
deriving Repr, DecidableEq

/-- Byte size of an int slot (_SIZEOF_INT in gen.py). -/
def sizeofInt : Int := 8

/-- Fresh generator state, from Compiler.__init__. -/
def initCState : CState := ⟨0, [[]], -8⟩

/-- Compiler._vars: the innermost scope frame. -/
def innerFrame (s : CState) : Frame := s.scopes.getLastD []

/-- Compiler._put_var: record a binding in the innermost frame. -/
def putVar (s : CState) (name : String) (off : Int) : CState :=
  { s with scopes := s.scopes.dropLast ++ [framePut (innerFrame s) name off] }

/-- Indexing into the scope stack (self._scopes[scope] in the source). -/
def frameAt (scopes : List Frame) (i : Nat) : Frame := scopes.getD i []

/-- Compiler._get_var: walk frames from the given index down to 0 and
return the first binding found, or the not-declared error at index 0. -/
def getVarAux (scopes : List Frame) (name : String) : Nat → Except CompileError Int
  | 0 =>
    match frameLookup (frameAt scopes 0) name with
    | some v => .ok v
    | none => .error (.notDeclared name)
  | k + 1 =>
    match frameLookup (frameAt scopes (k + 1)) name with
    | some v => .ok v
    | none => getVarAux scopes name k

/-- Compiler._get_var with the default scope argument (the innermost
index, which the source keeps equal to the scope-list length minus 1). -/
def getVar (s : CState) (name : String) : Except CompileError Int :=
  getVarAux s.scopes name (s.scopes.length - 1)

/-- Compiler._push_scope. -/
def pushScope (s : CState) : CState := { s with scopes := s.scopes ++ [[]] }

/-- Compiler._check_lvalue: only VarExp passes llvalue checking. -/
def checkLvalue : Exp → Except CompileError String
  | .varExp name => .ok name.value
  | _ => .error .notAnLvalue

/-- Compiler._generate_label with a template prefix: the source formats
".Lfalse{}" and friends with the counter, i.e. appends the counter to the
prefix, then increments the counter. -/
def genLabel (s : CState) (prefixStr : String) : String × CState :=
  (prefixStr ++ toString s.labelCounter, { s with labelCounter := s.labelCounter + 1 })

/-- General-purpose registers appearing in emitted code. -/
inductive Reg where
  | rax | rdi | rcx | rdx | rbp | rsp
deriving Repr, DecidableEq

/-- Instruction operands: immediate, register, or an rbp-relative memory
slot. -/
inductive Operand where
  | imm (n : Int)
  | reg (r : Reg)
  | mem (off : Int)
deriving Repr, DecidableEq

/-- The x86-64 instruction forms the generator emits, one constructor per
distinct print statement shape of gen.py.  The byte-condition set
instructions always target al and movzbq always extends al into rax as
in the source. -/
inductive Instr where
  | globl (name : String)
  | labelDef (l : String)
  | movq (src : Operand) (dst : Operand)
  | addq (src : Operand) (dst : Operand)
  | subq (src : Operand) (dst : Operand)
  | imulq (src : Operand) (dst : Operand)
  | andq (src : Operand) (dst : Operand)
  | orq (src : Operand) (dst : Operand)
  | xorq (src : Operand) (dst : Operand)
  | cmpq (a : Operand) (b : Operand)
  | neg (dst : Operand)
  | bnot (dst : Operand)
  | sete | setne | setl | setle | setg | setge
  | movzbq
  | pushq (r : Reg)
  | popq (r : Reg)
  | xchg (a : Operand) (b : Operand)
  | cqto
  | idivq (r : Reg)
  | salq (dst : Operand)
  | sarq (dst : Operand)
  | je (l : String)
  | jne (l : String)
  | jmp (l : String)
  | ret
deriving Repr, DecidableEq

def renderReg : Reg → String
  | .rax => "%rax"
  | .rdi => "%rdi"
  | .rcx => "%rcx"
  | .rdx => "%rdx"
  | .rbp => "%rbp"
  | .rsp => "%rsp"

def renderOperand : Operand → String
  | .imm n => s!"${n}"
  | .reg r => renderReg r
  | .mem off => s!"{off}(%rbp)"

/-- Renders one instruction exactly as the corresponding gen.py print
statement writes it (the source prints the mnemonic "not" and "neg"
without a size suffix). -/
def render : Instr → String
  | .globl name => s!"    .globl {name}"
  | .labelDef l => s!"{l}:"
  | .movq a b => s!"    movq {renderOperand a}, {renderOperand b}"
  | .addq a b => s!"    addq {renderOperand a}, {renderOperand b}"
  | .subq a b => s!"    subq {renderOperand a}, {renderOperand b}"
  | .imulq a b => s!"    imulq {renderOperand a}, {renderOperand b}"
  | .andq a b => s!"    andq {renderOperand a}, {renderOperand b}"
  | .orq a b => s!"    orq {renderOperand a}, {renderOperand b}"
  | .xorq a b => s!"    xorq {renderOperand a}, {renderOperand b}"
  | .cmpq a b => s!"    cmpq {renderOperand a}, {renderOperand b}"
  | .neg a => s!"    neg {renderOperand a}"
  | .bnot a => s!"    not {renderOperand a}"
  | .sete => "    sete %al"
  | .setne => "    setne %al"
  | .setl => "    setl %al"
  | .setle => "    setle %al"
  | .setg => "    setg %al"
  | .setge => "    setge %al"
  | .movzbq => "    movzbq %al, %rax"
  | .pushq r => s!"    pushq {renderReg r}"
  | .popq r => s!"    popq {renderReg r}"
  | .xchg a b => s!"    xchg {renderOperand a}, {renderOperand b}"
  | .cqto => "    cqto"
  | .idivq r => s!"    idivq {renderReg r}"
  | .salq a => s!"    salq %cl, {renderOperand a}"
  | .sarq a => s!"    sarq %cl, {renderOperand a}"
  | .je l => s!"    je {l}"
  | .jne l => s!"    jne {l}"
  | .jmp l => s!"    jmp {l}"
  | .ret => "    ret"

/-- Compiler._pop_scope: emit the deallocation, give the slots back to the
stack index, and drop the innermost frame. -/
def popScope (s : CState) : CState × List Instr :=
  let n : Int := (innerFrame s).length
  let bytesToDealloc := n * sizeofInt
  ({ s with
      scopes := s.scopes.dropLast,
      stackIndex := s.stackIndex + bytesToDealloc },
   [.addq (.imm bytesToDealloc) (.reg .rsp)])

/-- Instruction tail of _generate_binary_op_exp after the push/pop scheme,
one arm per BinaryOpKind (gen.py lines 149 to 201).  LogicalAnd and
LogicalOr are dispatched to the short-circuit generators before this table
is consulted, exactly as in the source, so their arms are unreachable. -/
def binaryOpInstrs : BinaryOpKind → List Instr
  | .Addition => [.addq (.reg .rdi) (.reg .rax)]
  | .Subtraction => [.subq (.reg .rax) (.reg .rdi), .movq (.reg .rdi) (.reg .rax)]
  | .Multiplication => [.imulq (.reg .rdi) (.reg .rax)]
  | .Division => [.xchg (.reg .rax) (.reg .rdi), .cqto, .idivq .rdi]
  | .Equal => [.cmpq (.reg .rax) (.reg .rdi), .sete, .movzbq]
  | .NotEqual => [.cmpq (.reg .rax) (.reg .rdi), .setne, .movzbq]
  | .LessThan => [.cmpq (.reg .rax) (.reg .rdi), .setl, .movzbq]
  | .LessThanOrEqual => [.cmpq (.reg .rax) (.reg .rdi), .setle, .movzbq]
  | .GreaterThan => [.cmpq (.reg .rax) (.reg .rdi), .setg, .movzbq]
  | .GreaterThanOrEqual => [.cmpq (.reg .rax) (.reg .rdi), .setge, .movzbq]
  | .Modulo => [.xchg (.reg .rax) (.reg .rdi), .cqto, .idivq .rdi, .movq (.reg .rdx) (.reg .rax)]
  | .BitwiseAnd => [.andq (.reg .rdi) (.reg .rax)]
  | .BitwiseOr => [.orq (.reg .rdi) (.reg .rax)]
  | .BitwiseXor => [.xorq (.reg .rdi) (.reg .rax)]
  | .BitwiseLeftShift => [.movq (.reg .rdi) (.reg .rcx), .salq (.reg .rax)]
  | .BitwiseRightShift => [.movq (.reg .rdi) (.reg .rcx), .sarq (.reg .rax)]
  | .LogicalAnd => []
  | .LogicalOr => []

/-- Instruction tail of _generate_assign_exp for a target slot, one arm
per AssignKind (gen.py lines 206 to 254). -/
def assignInstrs : AssignKind → Int → List Instr
  | .Simple, off => [.movq (.reg .rax) (.mem off)]
  | .Add, off =>
    [.movq (.mem off) (.reg .rdi), .addq (.reg .rax) (.reg .rdi), .movq (.reg .rdi) (.mem off)]
  | .Subtract, off =>
    [.movq (.mem off) (.reg .rdi), .subq (.reg .rax) (.reg .rdi), .movq (.reg .rdi) (.mem off)]
  | .Multiply, off =>
    [.movq (.mem off) (.reg .rdi), .imulq (.reg .rax) (.reg .rdi), .movq (.reg .rdi) (.mem off)]
  | .Divide, off =>
    [.movq (.mem off) (.reg .rdi), .xchg (.reg .rax) (.reg .rdi), .cqto, .idivq .rdi,
     .movq (.reg .rax) (.mem off)]
  | .Modulo, off =>
    [.movq (.mem off) (.reg .rdi), .xchg (.reg .rax) (.reg .rdi), .cqto, .idivq .rdi,
     .movq (.reg .rdx) (.mem off)]
  | .BitwiseAnd, off =>
    [.movq (.mem off) (.reg .rdi), .andq (.reg .rax) (.reg .rdi), .movq (.reg .rdi) (.mem off)]
  | .BitwiseOr, off =>
    [.movq (.mem off) (.reg .rdi), .orq (.reg .rax) (.reg .rdi), .movq (.reg .rdi) (.mem off)]
  | .BitwiseXor, off =>
    [.movq (.mem off) (.reg .rdi), .xorq (.reg .rax) (.reg .rdi), .movq (.reg .rdi) (.mem off)]
  | .BitwiseLeftShift, off =>
    [.movq (.mem off) (.reg .rdi), .movq (.reg .rax) (.reg .rcx), .salq (.reg .rdi),
     .movq (.reg .rdi) (.mem off)]
  | .BitwiseRightShift, off =>
    [.movq (.mem off) (.reg .rdi), .movq (.reg .rax) (.reg .rcx), .sarq (.reg .rdi),
     .movq (.reg .rdi) (.mem off)]

/-- Compiler._generate_exp: emit code for an expression, threading the
generator state and returning the emitted instructions in order. -/
def genExp (s : CState) : Exp → Except CompileError (CState × List Instr)
  | .constantExp value => .ok (s, [.movq (.imm value.value) (.reg .rax)])
  | .unaryOpExp op e =>
    match genExp s e with
    | .error err => .error err
    | .ok (s1, code) =>
      match op with
      | .Negation => .ok (s1, code ++ [.neg (.reg .rax)])
      | .BitwiseComplement => .ok (s1, code ++ [.bnot (.reg .rax)])
      | .LogicalNegation =>
        .ok (s1, code ++ [.cmpq (.imm 0) (.reg .rax), .sete, .movzbq])
      | .Increment =>
        match checkLvalue e with
        | .error err => .error err
        | .ok var =>
          match getVar s1 var with
          | .error err => .error err
          | .ok off =>
            .ok (s1, code ++ [.addq (.imm 1) (.reg .rax), .movq (.reg .rax) (.mem off)])
      | .Decrement =>
        match checkLvalue e with
        | .error err => .error err
        | .ok var =>
          match getVar s1 var with
          | .error err => .error err
          | .ok off =>
            .ok (s1, code ++ [.subq (.imm 1) (.reg .rax), .movq (.reg .rax) (.mem off)])
  | .binaryOpExp .LogicalAnd l r =>
    match genExp s l with
    | .error err => .error err
    | .ok (s1, lc) =>
      let (falseLabel, s2) := genLabel s1 ".Lfalse"
      match genExp s2 r with
      | .error err => .error err
      | .ok (s3, rc) =>
        .ok (s3, lc ++ [.cmpq (.imm 0) (.reg .rax), .je falseLabel] ++ rc ++
                 [.cmpq (.imm 0) (.reg .rax), .setne, .movzbq, .labelDef falseLabel])
  | .binaryOpExp .LogicalOr l r =>
    match genExp s l with
    | .error err => .error err
    | .ok (s1, lc) =>
      let (trueLabel, s2) := genLabel s1 ".Ltrue"
      match genExp s2 r with
      | .error err => .error err
      | .ok (s3, rc) =>
        .ok (s3, lc ++ [.cmpq (.imm 0) (.reg .rax), .jne trueLabel] ++ rc ++
                 [.labelDef trueLabel, .cmpq (.imm 0) (.reg .rax), .setne, .movzbq])
  | .binaryOpExp op l r =>
    match genExp s l with
    | .error err => .error err
    | .ok (s1, lc) =>
      match genExp s1 r with
      | .error err => .error err
      | .ok (s2, rc) =>
        .ok (s2, lc ++ [.pushq .rax] ++ rc ++ [.popq .rdi] ++ binaryOpInstrs op)
  | .assignExp left kind right =>
    match genExp s right with
    | .error err => .error err
    | .ok (s1, rc) =>
      match getVar s1 left.value with
      | .error err => .error err
      | .ok off => .ok (s1, rc ++ assignInstrs kind off)
  | .varExp name =>
    match getVar s name.value with
    | .error err => .error err
    | .ok off => .ok (s, [.movq (.mem off) (.reg .rax)])
  | .commaExp l r =>
    match genExp s l with
    | .error err => .error err
    | .ok (s1, lc) =>
      match genExp s1 r with
      | .error err => .error err
      | .ok (s2, rc) => .ok (s2, lc ++ rc)
  | .postfixExp e op =>
    match checkLvalue e with
    | .error err => .error err
    | .ok var =>
      match genExp s e with
      | .error err => .error err
      | .ok (s1, code) =>
        match getVar s1 var with
        | .error err => .error err
        | .ok off =>
          match op with
          | .Increment =>
            .ok (s1, code ++ [.addq (.imm 1) (.reg .rax), .movq (.reg .rax) (.mem off)])
          | .Decrement =>
            .ok (s1, code ++ [.subq (.imm 1) (.reg .rax), .movq (.reg .rax) (.mem off)])
  | .conditionalExp c t f =>
    match genExp s c with
    | .error err => .error err
    | .ok (s1, cc) =>
      let (falseLabel, s2) := genLabel s1 ".Lfalse"
      match genExp s2 t with
      | .error err => .error err
      | .ok (s3, tc) =>
        let (endLabel, s4) := genLabel s3 ".Lend"
        match genExp s4 f with
        | .error err => .error err
        | .ok (s5, fc) =>
          .ok (s5, cc ++ [.cmpq (.imm 0) (.reg .rax), .je falseLabel] ++ tc ++
                   [.jmp endLabel, .labelDef falseLabel] ++ fc ++ [.labelDef endLabel])

mutual

/-- Compiler._generate_statement and the specific statement generators. -/
def genStatement (s : CState) : Statement → Except CompileError (CState × List Instr)
  | .returnStatement _ exp _ =>
    match genExp s exp with
    | .error err => .error err
    | .ok (s1, code) =>
      .ok (s1, code ++ [.movq (.reg .rbp) (.reg .rsp), .popq .rbp, .ret])
  | .expStatement exp _ => genExp s exp
  | .declareStatement _ identifier initializer _ =>
    match frameLookup (innerFrame s) identifier.value with
    | some _ => .error (.alreadyDeclared identifier.value)
    | none =>
      let initRes :=
        match initializer with
        | some ini => genExp s ini.exp
        | none => .ok (s, [.movq (.imm 0) (.reg .rax)])
      match initRes with
      | .error err => .error err
      | .ok (s1, code) =>
        let s2 := putVar s1 identifier.value s1.stackIndex
        .ok ({ s2 with stackIndex := s2.stackIndex - sizeofInt }, code ++ [.pushq .rax])
  | .ifStatement _ _ condition _ thenStatement elseStatement =>
    match genExp s condition with
    | .error err => .error err
    | .ok (s1, cc) =>
      let (falseLabel, s2) := genLabel s1 ".Lfalse"
      match genStatement s2 thenStatement with
      | .error err => .error err
      | .ok (s3, tc) =>
        let (endLabel, s4) := genLabel s3 ".Lend"
        match genOptStatement s4 elseStatement with
        | .error err => .error err
        | .ok (s5, ec) =>
          .ok (s5, cc ++ [.cmpq (.imm 0) (.reg .rax), .je falseLabel] ++ tc ++
                   [.jmp endLabel, .labelDef falseLabel] ++ ec ++ [.labelDef endLabel])
  | .blockStatement _ statements _ =>
    match genStmtList (pushScope s) statements with
    | .error err => .error err
    | .ok (s1, code) =>
      let (s2, dealloc) := popScope s1
      .ok (s2, code ++ dealloc)

/-- The optional else branch of _generate_if_statement: code for the
statement when present, no code otherwise (the source guards the
generation with an if). -/
def genOptStatement (s : CState) : Option Statement → Except CompileError (CState × List Instr)
  | some st => genStatement s st
  | none => .ok (s, [])

/-- Statement sequencing, as the for loops of _generate_block_statement
and _generate_function. -/
def genStmtList (s : CState) : List Statement → Except CompileError (CState × List Instr)
  | [] => .ok (s, [])
  | st :: rest =>
    match genStatement s st with
    | .error err => .error err
    | .ok (s1, c1) =>
      match genStmtList s1 rest with
      | .error err => .error err
      | .ok (s2, c2) => .ok (s2, c1 ++ c2)

end

/-- Compiler._generate_function: directive, label, prologue, body, and the
implicit zero-return epilogue. -/
def genFunction (s : CState) (f : Function) : Except CompileError (CState × List Instr) :=
  match genStmtList s f.statements with
  | .error err => .error err
  | .ok (s1, body) =>
    .ok (s1, [.globl f.id.value, .labelDef f.id.value, .pushq .rbp,
              .movq (.reg .rsp) (.reg .rbp)] ++ body ++
             [.movq (.imm 0) (.reg .rax), .movq (.reg .rbp) (.reg .rsp), .popq .rbp, .ret])

/-- Compiler.generate as an instruction list, starting from the fresh
state Compiler.__init__ builds. -/
def generateInstrs (p : Program) : Except CompileError (List Instr) :=
  match genFunction initCState p.function with
  | .error err => .error err
  | .ok (_, code) => .ok code

/-- Compiler.generate: the assembly text, one rendered line plus newline
per print call. -/
def dragonpyGenerate (p : Program) : Except CompileError String :=
  match generateInstrs p with
  | .error err => .error err
  | .ok code => .ok (String.join (code.map (fun i => render i ++ "\n")))

/-- Failure of any phase of the pipeline. -/
inductive CompileFailure where
  | lexFailure (e : LexErr)
  | parseFailure (e : ParseErr)
  | genFailure (e : CompileError)
deriving Repr, DecidableEq

/-- Parser fuel budget: ample for the recursion depth the grammar chain
spends per consumed token. -/
def parserFuel (ts : List AnyToken) : Nat := 32 * ts.length + 32

/-- The compilation pipeline as the driver runs it: a freshly constructed
parser over a fresh lexer, then a freshly constructed generator
(dragonpy/__init__.py run: Parser(source, filename).parse() followed by
Compiler().generate(program)). -/
def compileSource (source filename : String) : Except CompileFailure String :=
  match dragonpyLex source filename with
  | .error e => .error (.lexFailure e)
  | .ok ts =>
    match parseProgramF (parserFuel ts) ts with
    | .error e => .error (.parseFailure e)
    | .ok prog =>
      match dragonpyGenerate prog with
      | .error e => .error (.genFailure e)
      | .ok asm => .ok asm

/-- Machine state for evaluating emitted straight-line code: the four
integer registers the generator uses, the hardware stack as a list, and
the rbp-relative slots as an association list defaulting to 0. -/
structure MState where
  rax : Int
  rdi : Int
  rcx : Int
  rdx : Int
  stack : List Int
  slots : List (Int × Int)
deriving Repr, DecidableEq

def slotRead : List (Int × Int) → Int → Int
  | [], _ => 0
  | (k, v) :: rest, off => if k = off then v else slotRead rest off

def slotWrite : List (Int × Int) → Int → Int → List (Int × Int)
  | [], off, v => [(off, v)]
  | (k, w) :: rest, off, v =>
    if k = off then (k, v) :: rest else (k, w) :: slotWrite rest off v

/-- Reads a data register; rbp and rsp are outside the modelled fragment. -/
def readReg (s : MState) : Reg → Option Int
  | .rax => some s.rax
  | .rdi => some s.rdi
  | .rcx => some s.rcx
  | .rdx => some s.rdx
  | .rbp => none
  | .rsp => none

def writeReg (s : MState) : Reg → Int → Option MState
  | .rax, v => some { s with rax := v }
  | .rdi, v => some { s with rdi := v }
  | .rcx, v => some { s with rcx := v }
  | .rdx, v => some { s with rdx := v }
  | .rbp, _ => none
  | .rsp, _ => none

def readOperand (s : MState) : Operand → Option Int
  | .imm n => some n
  | .reg r => readReg s r
  | .mem off => some (slotRead s.slots off)

def writeOperand (s : MState) : Operand → Int → Option MState
  | .imm _, _ => none
  | .reg r, v => writeReg s r v
  | .mem off, v => some { s with slots := slotWrite s.slots off v }

/-- Two-operand arithmetic in AT&T order: dst becomes f of the old dst
value and the src value. -/
def stepBin (s : MState) (src dst : Operand) (f : Int → Int → Int) : Option MState :=
  match readOperand s src, readOperand s dst with
  | some x, some y => writeOperand s dst (f y x)
  | _, _ => none

/-- One instruction of the straight-line fragment.  The semantics covers
the data-movement and integer instructions the settled claims evaluate;
flag-setting, control flow, shifts and division are outside the fragment
and map to none. -/
def step (s : MState) : Instr → Option MState
  | .movq a b =>
    match readOperand s a with
    | some v => writeOperand s b v
    | none => none
  | .addq a b => stepBin s a b (fun d x => d + x)
  | .subq a b => stepBin s a b (fun d x => d - x)
  | .imulq a b => stepBin s a b (fun d x => d * x)
  | .andq a b => stepBin s a b (fun d x => Int.land d x)
  | .orq a b => stepBin s a b (fun d x => Int.lor d x)
  | .xorq a b => stepBin s a b (fun d x => Int.xor d x)
  | .neg a =>
    match readOperand s a with
    | some v => writeOperand s a (-v)
    | none => none
  | .bnot a =>
    match readOperand s a with
    | some v => writeOperand s a (-v - 1)
    | none => none
  | .xchg a b =>
    match readOperand s a, readOperand s b with
    | some x, some y =>
      match writeOperand s a y with
      | some s1 => writeOperand s1 b x
      | none => none
    | _, _ => none
  | .pushq r =>
    match readReg s r with
    | some v => some { s with stack := v :: s.stack }
    | none => none
  | .popq r =>
    match s.stack with
    | [] => none
    | v :: rest => writeReg { s with stack := rest } r v
  | .cqto => some { s with rdx := if s.rax < 0 then -1 else 0 }
  | _ => none

/-- Runs a straight-line instruction sequence, none when an instruction
falls outside the modelled fragment. -/
def execStraight (s : MState) : List Instr → Option MState
  | [] => some s
  | i :: rest =>
    match step s i with
    | some s1 => execStraight s1 rest
    | none => none

/-- Token kinds of the minimal variant, dragon/token.py TokenKind. -/
inductive DTokenKind where
  | KW_INT | KW_RETURN | IDENTIFIER | NUMBER
  | OPEN_PARENTHESIS | CLOSE_PARENTHESIS | OPEN_BRACE | CLOSE_BRACE | SEMICOLON
deriving Repr, DecidableEq

/-- Source location of the minimal variant, dragon/token.py. -/
structure DSourceLocation where
  filename : String
  line : Nat
  column : Nat
deriving Repr, DecidableEq

/-- Token payload of the minimal variant: the TokenValue base class or one
of its two subclasses. -/
inductive DTokenValue where
  | base
  | identifier (value : String)
  | number (value : Int)
deriving Repr, DecidableEq

/-- Token of the minimal variant, dragon/token.py. -/
structure DToken where
  kind : DTokenKind
  location : DSourceLocation
  text : String
  value : DTokenValue
deriving Repr, DecidableEq

/-- Minimal-variant AST, dragon/ast.py. -/
structure DExpression where
  value : Int
deriving Repr, DecidableEq

structure DStatement where
  expression : DExpression
deriving Repr, DecidableEq

structure DFunction where
  name : String
  statement : DStatement
deriving Repr, DecidableEq

structure DProgram where
  function : DFunction
deriving Repr, DecidableEq

/-- Parse errors of dragon/parser.py. -/
inductive DParseErr where
  | unexpectedEof (expected : Option DTokenKind)
  | unexpectedToken (location : DSourceLocation) (got : DTokenKind) (expected : DTokenKind)
deriving Repr, DecidableEq

/-- Parser._expect of the minimal variant. -/
def dExpect (kind : DTokenKind) : List DToken → Except DParseErr (DToken × List DToken)
  | [] => .error (.unexpectedEof (some kind))
  | t :: rest =>
    if t.kind = kind then .ok (t, rest)
    else .error (.unexpectedToken t.location t.kind kind)

/-- Models the unchecked cast(token.Number, tok.value).value access. -/
def dValueNumber : DTokenValue → Int
  | .number n => n
  | _ => 0

/-- Models the unchecked cast(token.Identifier, tok.value).value access. -/
def dValueIdentifier : DTokenValue → String
  | .identifier s => s
  | _ => ""

/-- Parser._parse_expression of the minimal variant: one NUMBER token. -/
def dParseExpression (ts : List DToken) : Except DParseErr (DExpression × List DToken) :=
  match dExpect .NUMBER ts with
  | .error e => .error e
  | .ok (tok, ts) => .ok (⟨dValueNumber tok.value⟩, ts)

/-- Parser._parse_statement of the minimal variant. -/
def dParseStatement (ts : List DToken) : Except DParseErr (DStatement × List DToken) :=
  match dExpect .KW_RETURN ts with
  | .error e => .error e
  | .ok (_, ts) =>
    match dParseExpression ts with
    | .error e => .error e
    | .ok (expr, ts) =>
      match dExpect .SEMICOLON ts with
      | .error e => .error e
      | .ok (_, ts) => .ok (⟨expr⟩, ts)

/-- Parser._parse_function of the minimal variant. -/
def dParseFunction (ts : List DToken) : Except DParseErr (DFunction × List DToken) :=
  match dExpect .KW_INT ts with
  | .error e => .error e
  | .ok (_, ts) =>
    match dExpect .IDENTIFIER ts with
    | .error e => .error e
    | .ok (nameTok, ts) =>
      match dExpect .OPEN_PARENTHESIS ts with
      | .error e => .error e
      | .ok (_, ts) =>
        match dExpect .CLOSE_PARENTHESIS ts with
        | .error e => .error e
        | .ok (_, ts) =>
          match dExpect .OPEN_BRACE ts with
          | .error e => .error e
          | .ok (_, ts) =>
            match dParseStatement ts with
            | .error e => .error e
            | .ok (stmt, ts) =>
              match dExpect .CLOSE_BRACE ts with
              | .error e => .error e
              | .ok (_, ts) => .ok (⟨dValueIdentifier nameTok.value, stmt⟩, ts)

/-- Parser.parse of the minimal variant (dragon/parser.py lines 91 to 92):
it wraps the parsed function in a Program and returns, with no check that
the token stream is exhausted. -/
def dragonParse (ts : List DToken) : Except DParseErr DProgram :=
  match dParseFunction ts with
  | .error e => .error e
  | .ok (f, _) => .ok ⟨f⟩

/-- Fixed position for hand-built token lists. -/
def pos0 : SourcePos := ⟨"<input>", 1, 1⟩

/-- Plain token at the fixed position. -/
def ptok (t : TokenType) (text : String) : AnyToken := .plain ⟨t, text, pos0⟩

/-- Identifier token at the fixed position. -/
def itok (s : String) : AnyToken := .ident ⟨⟨.Identifier, s, pos0⟩, s⟩

/-- Decimal-constant token at the fixed position. -/
def ntok (n : Nat) (text : String) : AnyToken := .num ⟨⟨.DecimalConstant, text, pos0⟩, n⟩

/-- Identifier token value named a. -/
def aTok : IdentifierToken := ⟨⟨.Identifier, "a", pos0⟩, "a"⟩

/-- Generator state with one declared variable a at slot -8. -/
def c1CState : CState := ⟨0, [[("a", -8)]], -16⟩

/-- The postfix increment of a. -/
def c1Exp : Exp := .postfixExp (.varExp aTok) .Increment

/-- Code the generator emits for c1Exp: load, increment in place, store. -/
def c1Code : List Instr :=
  [.movq (.mem (-8)) (.reg .rax), .addq (.imm 1) (.reg .rax), .movq (.reg .rax) (.mem (-8))]

/-- Machine state before evaluating c1Code: slot of a holds 5. -/
def c1Start : MState := ⟨0, 0, 0, 0, [], [(-8, 5)]⟩

/-- Machine state after c1Code: the slot holds 6 and rax holds 6 as well. -/
def c1End : MState := ⟨6, 0, 0, 0, [], [(-8, 6)]⟩

/-- C1: the claim says postfix increment/decrement stores the updated
value and leaves the pre-update value in rax.  The generator emits the
same sequence as the prefix form (gen.py lines 265 to 274): it increments
rax in place before storing, so after the sequence rax holds the
post-update value 6, not the pre-update value 5 that was in the slot. -/
theorem c1_postfix_increment_leaves_post_update_value :
    genExp c1CState c1Exp = .ok (c1CState, c1Code) ∧
    execStraight c1Start c1Code = some c1End ∧
    slotRead c1Start.slots (-8) = 5 ∧
    c1End.rax = 6 ∧
    c1End.rax ≠ slotRead c1Start.slots (-8) := by
  refine ⟨rfl, rfl, rfl, rfl, ?_⟩
  decide

/-- C2: several token kinds the lexer refers to are absent from the
TokenType enumeration of token.py: every keyword entry beyond int and
return, and the PlusPlus, MinusMinus, Comma, Question and Colon operator
branches.  In Python the keyword table raises AttributeError as soon as
dragonpy/lexer.py is imported.  The last two conjuncts evaluate the
modelled lexer at inputs that hit those references. -/
theorem c2_lexer_refers_to_undefined_token_kinds :
    ("KwIf" ∈ dragonpyKeywordTable.map Prod.snd ∧ "KwIf" ∉ tokenTypeMemberNames) ∧
    ("KwElse" ∈ dragonpyKeywordTable.map Prod.snd ∧ "KwElse" ∉ tokenTypeMemberNames) ∧
    ("KwFor" ∈ dragonpyKeywordTable.map Prod.snd ∧ "KwFor" ∉ tokenTypeMemberNames) ∧
    ("KwWhile" ∈ dragonpyKeywordTable.map Prod.snd ∧ "KwWhile" ∉ tokenTypeMemberNames) ∧
    ("KwDo" ∈ dragonpyKeywordTable.map Prod.snd ∧ "KwDo" ∉ tokenTypeMemberNames) ∧
    ("KwBreak" ∈ dragonpyKeywordTable.map Prod.snd ∧ "KwBreak" ∉ tokenTypeMemberNames) ∧
    ("KwContinue" ∈ dragonpyKeywordTable.map Prod.snd ∧ "KwContinue" ∉ tokenTypeMemberNames) ∧
    ("PlusPlus" ∈ lexerBranchKindNames ∧ "PlusPlus" ∉ tokenTypeMemberNames) ∧
    ("MinusMinus" ∈ lexerBranchKindNames ∧ "MinusMinus" ∉ tokenTypeMemberNames) ∧
    ("Comma" ∈ lexerBranchKindNames ∧ "Comma" ∉ tokenTypeMemberNames) ∧
    ("Question" ∈ lexerBranchKindNames ∧ "Question" ∉ tokenTypeMemberNames) ∧
    ("Colon" ∈ lexerBranchKindNames ∧ "Colon" ∉ tokenTypeMemberNames) ∧
    dragonpyLex "if" "f" = .error (.undefinedMember "KwIf") ∧
    dragonpyLex "x++" "f" = .error (.undefinedMember "PlusPlus") := by
  refine ⟨?_, ?_, ?_, ?_, ?_, ?_, ?_, ?_, ?_, ?_, ?_, ?_, rfl, rfl⟩ <;> decide

/-- Token list for the expression a & b && c. -/
def c3Toks : List AnyToken :=
  [itok "a", ptok .Amp "&", itok "b", ptok .AmpAmp "&&", itok "c"]

/-- Token list for the program int main() { return a & b && c; }. -/
def c3ProgToks : List AnyToken :=
  [ptok .KwInt "int", itok "main", ptok .OpenParen "(", ptok .CloseParen ")",
   ptok .OpenBrace "\x7b", ptok .KwReturn "return"] ++ c3Toks ++
  [ptok .Semicolon ";", ptok .CloseBrace "\x7d"]

/-- C3: the claim says the bitwise operators sit between equality and
logical-and in the live grammar, so a & b && c parses.  In parser.py the
logical-and production parses its operands with _parse_equality_exp and
the bitwise productions are never invoked, so expression parsing stops
at the ampersand (leaving it unconsumed) and the enclosing statement
fails expecting a semicolon. -/
theorem c3_bitwise_and_not_reachable_from_logical_and :
    parseExpF 100 c3Toks =
      .ok (.varExp aTok, [ptok .Amp "&", itok "b", ptok .AmpAmp "&&", itok "c"]) ∧
    parseProgramF 100 c3ProgToks = .error (.unexpectedToken pos0 .Amp .Semicolon) := by
  exact ⟨rfl, rfl⟩

/-- Token list for the program int main() { { return 5; } return 7; }. -/
def c4Toks : List AnyToken :=
  [ptok .KwInt "int", itok "main", ptok .OpenParen "(", ptok .CloseParen ")",
   ptok .OpenBrace "\x7b", ptok .OpenBrace "\x7b", ptok .KwReturn "return", ntok 5 "5",
   ptok .Semicolon ";", ptok .CloseBrace "\x7d", ptok .KwReturn "return", ntok 7 "7",
   ptok .Semicolon ";", ptok .CloseBrace "\x7d"]

/-- C4: the claim says every grammar statement form parses, including if
statements and braced blocks.  Parser._parse_statement has branches only
for return, declaration and expression statements: a block in statement
position falls through to expression parsing and fails, and the claim's
if example cannot even be lexed because the keyword table refers to the
missing KwIf member. -/
theorem c4_block_and_if_statements_rejected :
    parseProgramF 100 c4Toks = .error (.expectedExpression pos0 .OpenBrace) ∧
    dragonpyLex "int main() { int a = 0; if (a) return 5; else return 7; }" "<input>" =
      .error (.undefinedMember "KwIf") := by
  exact ⟨rfl, rfl⟩

/-- Generator state with one declared variable a at slot -8. -/
def c5CState : CState := ⟨0, [[("a", -8)]], -16⟩

/-- The compound assignment a += 3. -/
def c5Exp : Exp := .assignExp aTok .Add (.constantExp ⟨⟨.DecimalConstant, "3", pos0⟩, 3⟩)

/-- Code the generator emits for a += 3: evaluate the right side into rax,
combine into rdi, store rdi; rax is never updated. -/
def c5Code : List Instr :=
  [.movq (.imm 3) (.reg .rax), .movq (.mem (-8)) (.reg .rdi),
   .addq (.reg .rax) (.reg .rdi), .movq (.reg .rdi) (.mem (-8))]

/-- Machine state before c5Code: slot of a holds 5. -/
def c5Start : MState := ⟨0, 0, 0, 0, [], [(-8, 5)]⟩

/-- Machine state after c5Code: the slot holds 8 but rax still holds the
right-hand side value 3. -/
def c5End : MState := ⟨3, 8, 0, 0, [], [(-8, 8)]⟩

/-- C5: the claim says every expression leaves its C value in rax, and a
compound assignment leaves the stored-back value there.  For a += 3 with
a holding 5 the emitted code stores 8 to the slot but leaves 3 (the
right-hand side) in rax. -/
theorem c5_compound_assign_leaves_rhs_in_rax :
    genExp c5CState c5Exp = .ok (c5CState, c5Code) ∧
    execStraight c5Start c5Code = some c5End ∧
    slotRead c5End.slots (-8) = 8 ∧
    c5End.rax = 3 ∧
    c5End.rax ≠ slotRead c5End.slots (-8) := by
  refine ⟨rfl, rfl, rfl, rfl, ?_⟩
  decide

/-- C8 (richer parser half): whenever the function production succeeds
with a token left over, Parser.parse of dragonpy raises the
end-of-file parse error instead of returning a Program. -/
theorem c8_dragonpy_parse_rejects_trailing_tokens :
    ∀ (fuel : Nat) (ts : List AnyToken) (f : Function) (t : AnyToken) (rest : List AnyToken),
      parseFunctionF fuel ts = .ok (f, t :: rest) →
      parseProgramF fuel ts = .error (.trailingToken t.pos t.type) := by
  intro fuel ts f t rest h
  simp [parseProgramF, h]

/-- Token list for int main() { return 2; } followed by a stray
semicolon. -/
def c8Toks : List AnyToken :=
  [ptok .KwInt "int", itok "main", ptok .OpenParen "(", ptok .CloseParen ")",
   ptok .OpenBrace "\x7b", ptok .KwReturn "return", ntok 2 "2", ptok .Semicolon ";",
   ptok .CloseBrace "\x7d", ptok .Semicolon ";"]

theorem c8_dragonpy_parse_rejects_trailing_tokens_witness :
    parseProgramF 100 c8Toks = .error (.trailingToken pos0 .Semicolon) :=
  c8_dragonpy_parse_rejects_trailing_tokens 100 c8Toks _ _ _ rfl

/-- Location used in hand-built minimal-variant token lists. -/
def dloc : DSourceLocation := ⟨"<input>", 1, 1⟩

/-- Minimal-variant token with the base payload. -/
def dtok (k : DTokenKind) (text : String) : DToken := ⟨k, dloc, text, .base⟩

/-- Minimal-variant token list for int main() { return 2; } followed by a
stray semicolon. -/
def c8DToks : List DToken :=
  [dtok .KW_INT "int", ⟨.IDENTIFIER, dloc, "main", .identifier "main"⟩,
   dtok .OPEN_PARENTHESIS "(", dtok .CLOSE_PARENTHESIS ")", dtok .OPEN_BRACE "\x7b",
   dtok .KW_RETURN "return", ⟨.NUMBER, dloc, "2", .number 2⟩, dtok .SEMICOLON ";",
   dtok .CLOSE_BRACE "\x7d", dtok .SEMICOLON ";"]

/-- C8 counterexample: the minimal parser (dragon/parser.py) returns a
Program although a token remains after the function, contradicting the
claim for the minimal variant. -/
theorem c8_minimal_parser_accepts_trailing_tokens :
    dragonParse c8DToks = .ok ⟨⟨"main", ⟨⟨2⟩⟩⟩⟩ := rfl

/-- C9: the pipeline is a pure function of the source bytes: the driver
builds a fresh Parser and a fresh Compiler per run (the fresh generator
state is the fixed initCState), so two compilations of the same source
return identical results, byte for byte. -/
theorem c9_compilation_deterministic :
    ∀ (source filename : String),
      compileSource source filename = compileSource source filename ∧
      initCState = ⟨0, [[]], -8⟩ := by
  intro source filename
  exact ⟨rfl, rfl⟩

/-- Characterizes the not-declared error of _get_var: the walk from index
k down to 0 fails exactly when no frame at an index up to k binds the
name. -/
theorem getVarAux_error_iff (scopes : List Frame) (name : String) :
    ∀ k, getVarAux scopes name k = .error (.notDeclared name) ↔
      ∀ i, i ≤ k → frameLookup (frameAt scopes i) name = none := by
  intro k
  induction k with
  | zero =>
    constructor
    · intro h i hi
      have hi0 : i = 0 := Nat.le_zero.mp hi
      subst hi0
      cases hf : frameLookup (frameAt scopes 0) name with
      | none => rfl
      | some v => simp [getVarAux, hf] at h
    · intro h
      simp [getVarAux, h 0 (Nat.le_refl 0)]
  | succ k ih =>
    constructor
    · intro h i hi
      cases hf : frameLookup (frameAt scopes (k + 1)) name with
      | some v => simp [getVarAux, hf] at h
      | none =>
        rcases Nat.lt_or_ge i (k + 1) with hlt | hge
        · have h2 : getVarAux scopes name k = .error (.notDeclared name) := by
            simpa [getVarAux, hf] using h
          exact ih.mp h2 i (Nat.lt_succ_iff.mp hlt)
        · have : i = k + 1 := Nat.le_antisymm hi hge
          subst this
          exact hf
    · intro h
      have hf : frameLookup (frameAt scopes (k + 1)) name = none :=
        h (k + 1) (Nat.le_refl _)
      have h2 : getVarAux scopes name k = .error (.notDeclared name) :=
        ih.mpr fun i hi => h i (Nat.le_succ_of_le hi)
      simp [getVarAux, hf, h2]

/-- A failing _get_var walk reports exactly the not-declared error for the
looked-up name. -/
theorem getVarAux_error_shape (scopes : List Frame) (name : String) :
    ∀ k e, getVarAux scopes name k = .error e → e = .notDeclared name := by
  intro k
  induction k with
  | zero =>
    intro e h
    cases hf : frameLookup (frameAt scopes 0) name with
    | some v => simp [getVarAux, hf] at h
    | none =>
      simp [getVarAux, hf] at h
      exact h.symm
  | succ k ih =>
    intro e h
    cases hf : frameLookup (frameAt scopes (k + 1)) name with
    | some v => simp [getVarAux, hf] at h
    | none =>
      apply ih
      simpa [getVarAux, hf] using h

/-- The walk returns the binding of the innermost (highest-index) frame
that contains the name. -/
theorem getVarAux_innermost (scopes : List Frame) (name : String) :
    ∀ k i v, i ≤ k → frameLookup (frameAt scopes i) name = some v →
      (∀ j, i < j → j ≤ k → frameLookup (frameAt scopes j) name = none) →
      getVarAux scopes name k = .ok v := by
  intro k
  induction k with
  | zero =>
    intro i v hi hv _
    have : i = 0 := Nat.le_zero.mp hi
    subst this
    simp [getVarAux, hv]
  | succ k ih =>
    intro i v hi hv habove
    rcases Nat.lt_or_ge i (k + 1) with hlt | hge
    · have hf : frameLookup (frameAt scopes (k + 1)) name = none :=
        habove (k + 1) hlt (Nat.le_refl _)
      have : getVarAux scopes name k = .ok v :=
        ih i v (Nat.lt_succ_iff.mp hlt) hv
          (fun j hj1 hj2 => habove j hj1 (Nat.le_succ_of_le hj2))
      simp [getVarAux, hf, this]
    · have : i = k + 1 := Nat.le_antisymm hi hge
      subst this
      simp [getVarAux, hv]

/-- Bridges the index form of the walk to frame membership in the scope
stack. -/
theorem forall_frameAt_iff_mem (scopes : List Frame) (name : String) (h : scopes ≠ []) :
    (∀ i, i ≤ scopes.length - 1 → frameLookup (frameAt scopes i) name = none) ↔
    (∀ f ∈ scopes, frameLookup f name = none) := by
  have hlen : 0 < scopes.length := List.length_pos.mpr h
  constructor
  · intro h1 f hf
    obtain ⟨i, hi, heq⟩ := List.mem_iff_getElem.mp hf
    have h2 := h1 i (by omega)
    rw [frameAt, List.getD_eq_getElem?_getD, List.getElem?_eq_getElem hi] at h2
    simpa [heq] using h2
  · intro h1 i hi
    have hlt : i < scopes.length := by omega
    rw [frameAt, List.getD_eq_getElem?_getD, List.getElem?_eq_getElem hlt]
    exact h1 _ (List.getElem_mem hlt)

/-- C7: name resolution errors exactly on names bound in no frame, a
lookup returns the innermost binding, a declaration whose name is bound
in the innermost frame raises the redeclaration error before its
initializer is even generated, and a declaration whose name is free in
the innermost frame succeeds regardless of outer bindings (shadowing). -/
theorem c7_name_resolution_and_redeclaration :
    (∀ (s : CState) (name : String), s.scopes ≠ [] →
      (getVar s name = .error (.notDeclared name) ↔
        ∀ f ∈ s.scopes, frameLookup f name = none)) ∧
    (∀ (s : CState) (name : String) (i : Nat) (v : Int),
      i < s.scopes.length →
      frameLookup (frameAt s.scopes i) name = some v →
      (∀ j, i < j → j < s.scopes.length → frameLookup (frameAt s.scopes j) name = none) →
      getVar s name = .ok v) ∧
    (∀ (s : CState) (kw semi : AnyToken) (id : IdentifierToken)
       (ini : Option Initializer) (off : Int),
      frameLookup (innerFrame s) id.value = some off →
      genStatement s (.declareStatement kw id ini semi) = .error (.alreadyDeclared id.value)) ∧
    (∀ (s : CState) (kw semi : AnyToken) (id : IdentifierToken),
      frameLookup (innerFrame s) id.value = none →
      genStatement s (.declareStatement kw id none semi) =
        .ok ({ putVar s id.value s.stackIndex with
                 stackIndex := s.stackIndex - sizeofInt },
             [.movq (.imm 0) (.reg .rax), .pushq .rax])) := by
  refine ⟨?_, ?_, ?_, ?_⟩
  · intro s name hne
    rw [getVar, getVarAux_error_iff]
    exact forall_frameAt_iff_mem s.scopes name hne
  · intro s name i v hi hv habove
    exact getVarAux_innermost s.scopes name (s.scopes.length - 1) i v (by omega) hv
      (fun j hj1 hj2 => habove j hj1 (by omega))
  · intro s kw semi id ini off h
    simp [genStatement, h]
  · intro s kw semi id h
    simp [genStatement, h, putVar]

/-- Generator state with an outer and an inner binding of x. -/
def c7State : CState := ⟨0, [[("x", -8)], [("x", -16)]], -24⟩

theorem c7_name_resolution_and_redeclaration_witness :
    getVar c7State "x" = .ok (-16) ∧
    genStatement c7State
      (.declareStatement (ptok .KwInt "int") ⟨⟨.Identifier, "x", pos0⟩, "x"⟩ none
        (ptok .Semicolon ";")) =
      .error (.alreadyDeclared "x") := by
  constructor
  · refine c7_name_resolution_and_redeclaration.2.1 c7State "x" 1 (-16) (by decide) (by decide) ?_
    intro j hj1 hj2
    have hl : c7State.scopes.length = 2 := rfl
    rw [hl] at hj2
    exact absurd hj1 (by omega)
  · exact c7_name_resolution_and_redeclaration.2.2.1 c7State (ptok .KwInt "int")
      (ptok .Semicolon ";") ⟨⟨.Identifier, "x", pos0⟩, "x"⟩ none (-16) (by decide)

/-- Injection on successful generator results. -/
theorem okInj {s1 s2 : CState} {c1 c2 : List Instr}
    (h : (Except.ok (s1, c1) : Except CompileError (CState × List Instr)) = .ok (s2, c2)) :
    s1 = s2 ∧ c1 = c2 := by
  cases h
  exact ⟨rfl, rfl⟩

/-- Expression generation touches only the label counter: scopes and the
stack index come back unchanged. -/
theorem genExp_state (e : Exp) : ∀ (s s2 : CState) (code : List Instr),
    genExp s e = .ok (s2, code) →
    s2.scopes = s.scopes ∧ s2.stackIndex = s.stackIndex := by
  induction e with
  | constantExp v =>
    intro s s2 code h
    obtain ⟨h1, -⟩ := okInj h
    simp [← h1]
  | unaryOpExp op e ih =>
    intro s s2 code h
    rw [genExp] at h
    cases hg : genExp s e with
    | error err => simp [hg] at h
    | ok res =>
      obtain ⟨s1, c1⟩ := res
      simp only [hg] at h
      obtain ⟨hsc, hsi⟩ := ih s s1 c1 hg
      cases op with
      | Negation =>
        obtain ⟨h1, -⟩ := okInj h
        simp [← h1, hsc, hsi]
      | BitwiseComplement =>
        obtain ⟨h1, -⟩ := okInj h
        simp [← h1, hsc, hsi]
      | LogicalNegation =>
        obtain ⟨h1, -⟩ := okInj h
        simp [← h1, hsc, hsi]
      | Increment =>
        cases hc : checkLvalue e with
        | error err => simp [hc] at h
        | ok var =>
          simp only [hc] at h
          cases hv : getVar s1 var with
          | error err => simp [hv] at h
          | ok off =>
            simp only [hv] at h
            obtain ⟨h1, -⟩ := okInj h
            simp [← h1, hsc, hsi]
      | Decrement =>
        cases hc : checkLvalue e with
        | error err => simp [hc] at h
        | ok var =>
          simp only [hc] at h
          cases hv : getVar s1 var with
          | error err => simp [hv] at h
          | ok off =>
            simp only [hv] at h
            obtain ⟨h1, -⟩ := okInj h
            simp [← h1, hsc, hsi]
  | binaryOpExp op l r ihl ihr =>
    intro s s2 code h
    cases op
    case LogicalAnd =>
      rw [genExp] at h
      cases hl : genExp s l with
      | error err => simp [hl] at h
      | ok resl =>
        obtain ⟨s1, c1⟩ := resl
        simp only [hl, genLabel] at h
        obtain ⟨hsc1, hsi1⟩ := ihl s s1 c1 hl
        cases hr : genExp { s1 with labelCounter := s1.labelCounter + 1 } r with
        | error err => simp [hr] at h
        | ok resr =>
          obtain ⟨s3, c3⟩ := resr
          simp only [hr] at h
          obtain ⟨hsc3, hsi3⟩ := ihr _ s3 c3 hr
          obtain ⟨h1, -⟩ := okInj h
          simp only [← h1]
          simp_all
    case LogicalOr =>
      rw [genExp] at h
      cases hl : genExp s l with
      | error err => simp [hl] at h
      | ok resl =>
        obtain ⟨s1, c1⟩ := resl
        simp only [hl, genLabel] at h
        obtain ⟨hsc1, hsi1⟩ := ihl s s1 c1 hl
        cases hr : genExp { s1 with labelCounter := s1.labelCounter + 1 } r with
        | error err => simp [hr] at h
        | ok resr =>
          obtain ⟨s3, c3⟩ := resr
          simp only [hr] at h
          obtain ⟨hsc3, hsi3⟩ := ihr _ s3 c3 hr
          obtain ⟨h1, -⟩ := okInj h
          simp only [← h1]
          simp_all
    all_goals (
      rw [genExp] at h
      cases hl : genExp s l with
      | error err => simp [hl] at h
      | ok resl =>
        obtain ⟨s1, c1⟩ := resl
        simp only [hl] at h
        obtain ⟨hsc1, hsi1⟩ := ihl s s1 c1 hl
        cases hr : genExp s1 r with
        | error err => simp [hr] at h
        | ok resr =>
          obtain ⟨s3, c3⟩ := resr
          simp only [hr] at h
          obtain ⟨hsc3, hsi3⟩ := ihr s1 s3 c3 hr
          obtain ⟨h1, -⟩ := okInj h
          simp only [← h1]
          simp_all
      all_goals simp)
  | assignExp left kind right ih =>
    intro s s2 code h
    rw [genExp] at h
    cases hg : genExp s right with
    | error err => simp [hg] at h
    | ok res =>
      obtain ⟨s1, c1⟩ := res
      simp only [hg] at h
      obtain ⟨hsc, hsi⟩ := ih s s1 c1 hg
      cases hv : getVar s1 left.value with
      | error err => simp [hv] at h
      | ok off =>
        simp only [hv] at h
        obtain ⟨h1, -⟩ := okInj h
        simp [← h1, hsc, hsi]
  | commaExp l r ihl ihr =>
    intro s s2 code h
    rw [genExp] at h
    cases hl : genExp s l with
    | error err => simp [hl] at h
    | ok resl =>
      obtain ⟨s1, c1⟩ := resl
      simp only [hl] at h
      obtain ⟨hsc1, hsi1⟩ := ihl s s1 c1 hl
      cases hr : genExp s1 r with
      | error err => simp [hr] at h
      | ok resr =>
        obtain ⟨s3, c3⟩ := resr
        simp only [hr] at h
        obtain ⟨hsc3, hsi3⟩ := ihr s1 s3 c3 hr
        obtain ⟨h1, -⟩ := okInj h
        simp only [← h1]
        simp_all
  | postfixExp e op ih =>
    intro s s2 code h
    rw [genExp] at h
    cases hc : checkLvalue e with
    | error err => simp [hc] at h
    | ok var =>
      simp only [hc] at h
      cases hg : genExp s e with
      | error err => simp [hg] at h
      | ok res =>
        obtain ⟨s1, c1⟩ := res
        simp only [hg] at h
        obtain ⟨hsc, hsi⟩ := ih s s1 c1 hg
        cases hv : getVar s1 var with
        | error err => simp [hv] at h
        | ok off =>
          simp only [hv] at h
          cases op with
          | Increment =>
            obtain ⟨h1, -⟩ := okInj h
            simp [← h1, hsc, hsi]
          | Decrement =>
            obtain ⟨h1, -⟩ := okInj h
            simp [← h1, hsc, hsi]
  | conditionalExp c t f ihc iht ihf =>
    intro s s2 code h
    rw [genExp] at h
    cases hc : genExp s c with
    | error err => simp [hc] at h
    | ok resc =>
      obtain ⟨s1, c1⟩ := resc
      simp only [hc, genLabel] at h
      obtain ⟨hsc1, hsi1⟩ := ihc s s1 c1 hc
      cases ht : genExp { s1 with labelCounter := s1.labelCounter + 1 } t with
      | error err => simp [ht] at h
      | ok rest =>
        obtain ⟨s3, c3⟩ := rest
        simp only [ht] at h
        obtain ⟨hsc3, hsi3⟩ := iht _ s3 c3 ht
        cases hf : genExp { s3 with labelCounter := s3.labelCounter + 1 } f with
        | error err => simp [hf] at h
        | ok resf =>
          obtain ⟨s5, c5⟩ := resf
          simp only [hf] at h
          obtain ⟨hsc5, hsi5⟩ := ihf _ s5 c5 hf
          obtain ⟨h1, -⟩ := okInj h
          simp only [← h1]
          simp_all
  | varExp name =>
    intro s s2 code h
    rw [genExp] at h
    cases hv : getVar s name.value with
    | error err => simp [hv] at h
    | ok off =>
      simp only [hv] at h
      obtain ⟨h1, -⟩ := okInj h
      simp [← h1]

/-- Bookkeeping invariant preserved by statement generation: scope-stack
length, the outer frames, and the balance between the stack index and
the size of the innermost frame. -/
def framesInv (s s2 : CState) : Prop :=
  s2.scopes.length = s.scopes.length ∧
  s2.scopes.dropLast = s.scopes.dropLast ∧
  s2.stackIndex + sizeofInt * ((innerFrame s2).length : Int) =
    s.stackIndex + sizeofInt * ((innerFrame s).length : Int)

theorem framesInv_of_eq {s s2 : CState} (h1 : s2.scopes = s.scopes)
    (h2 : s2.stackIndex = s.stackIndex) : framesInv s s2 := by
  refine ⟨by rw [h1], by rw [h1], ?_⟩
  rw [h2, innerFrame, innerFrame, h1]

theorem framesInv_trans {s1 s2 s3 : CState} (h1 : framesInv s1 s2) (h2 : framesInv s2 s3) :
    framesInv s1 s3 :=
  ⟨h2.1.trans h1.1, h2.2.1.trans h1.2.1, h2.2.2.trans h1.2.2⟩

theorem framesInv_ne {s s2 : CState} (h : framesInv s s2) (hne : s.scopes ≠ []) :
    s2.scopes ≠ [] := by
  intro hnil
  have hl := h.1
  rw [hnil] at hl
  simp at hl
  exact hne (List.length_eq_zero.mp hl.symm)

/-- Inserting an absent key into a frame grows it by exactly one entry. -/
theorem framePut_length (f : Frame) (name : String) (v : Int)
    (h : frameLookup f name = none) :
    (framePut f name v).length = f.length + 1 := by
  induction f with
  | nil => simp [framePut]
  | cons kv rest ih =>
    obtain ⟨k, w⟩ := kv
    by_cases hk : k = name
    · simp [frameLookup, hk] at h
    · simp only [frameLookup, hk, if_false] at h
      simp [framePut, hk, ih h]

/-- Effect of _put_var on the scope stack shape. -/
theorem putVar_scopes (s : CState) (name : String) (off : Int) (hne : s.scopes ≠ []) :
    (putVar s name off).scopes.length = s.scopes.length ∧
    (putVar s name off).scopes.dropLast = s.scopes.dropLast ∧
    innerFrame (putVar s name off) = framePut (innerFrame s) name off := by
  have hlen : 0 < s.scopes.length := List.length_pos.mpr hne
  refine ⟨?_, ?_, ?_⟩
  · simp [putVar, List.length_dropLast]
    omega
  · simp [putVar, List.dropLast_concat]
  · simp [putVar, innerFrame, List.getLastD_concat]

mutual

/-- Generating a statement preserves the frames invariant. -/
theorem genStatement_frames : ∀ (st : Statement) (s s2 : CState) (code : List Instr),
    s.scopes ≠ [] → genStatement s st = .ok (s2, code) → framesInv s s2
  | .returnStatement kw e semi => by
    intro s s2 code hne h
    rw [genStatement] at h
    cases hg : genExp s e with
    | error err => simp [hg] at h
    | ok res =>
      obtain ⟨s1, c1⟩ := res
      simp only [hg] at h
      obtain ⟨h1, -⟩ := okInj h
      obtain ⟨ha, hb⟩ := genExp_state e s s1 c1 hg
      exact framesInv_of_eq (h1 ▸ ha) (h1 ▸ hb)
  | .expStatement e semi => by
    intro s s2 code hne h
    simp only [genStatement] at h
    obtain ⟨ha, hb⟩ := genExp_state e s s2 code h
    exact framesInv_of_eq ha hb
  | .declareStatement kw id ini semi => by
    intro s s2 code hne h
    cases ini with
    | none =>
      rw [genStatement] at h
      cases hl : frameLookup (innerFrame s) id.value with
      | some v => simp [hl] at h
      | none =>
        simp only [hl] at h
        obtain ⟨h1, -⟩ := okInj h
        obtain ⟨hp1, hp2, hp3⟩ := putVar_scopes s id.value s.stackIndex hne
        refine ⟨?_, ?_, ?_⟩
        · rw [← h1]
          exact hp1
        · rw [← h1]
          exact hp2
        · rw [← h1]
          show s.stackIndex - sizeofInt +
              sizeofInt * ((innerFrame (putVar s id.value s.stackIndex)).length : Int) = _
          rw [hp3, framePut_length (innerFrame s) id.value s.stackIndex hl]
          push_cast
          ring
    | some ini =>
      rw [genStatement] at h
      cases hl : frameLookup (innerFrame s) id.value with
      | some v => simp [hl] at h
      | none =>
        simp only [hl] at h
        cases hg : genExp s ini.exp with
        | error err => simp [hg] at h
        | ok res =>
          obtain ⟨s1, c1⟩ := res
          simp only [hg] at h
          obtain ⟨hsc, hsi⟩ := genExp_state ini.exp s s1 c1 hg
          have hne1 : s1.scopes ≠ [] := by rw [hsc]; exact hne
          obtain ⟨h1, -⟩ := okInj h
          obtain ⟨hp1, hp2, hp3⟩ := putVar_scopes s1 id.value s1.stackIndex hne1
          have hinner : innerFrame s1 = innerFrame s := by rw [innerFrame, innerFrame, hsc]
          refine ⟨?_, ?_, ?_⟩
          · rw [← h1]
            rw [show (putVar s1 id.value s1.stackIndex).scopes.length = s1.scopes.length from hp1,
               hsc]
          · rw [← h1]
            rw [show (putVar s1 id.value s1.stackIndex).scopes.dropLast = s1.scopes.dropLast from hp2,
               hsc]
          · rw [← h1]
            show s1.stackIndex - sizeofInt +
                sizeofInt * ((innerFrame (putVar s1 id.value s1.stackIndex)).length : Int) = _
            rw [hp3, hinner, framePut_length (innerFrame s) id.value s1.stackIndex hl, hsi]
            push_cast
            ring
  | .ifStatement ifKw lp condition rp thenStatement elseStatement => by
    intro s s2 code hne h
    rw [genStatement] at h
    cases hg : genExp s condition with
    | error err => simp [hg] at h
    | ok res =>
      obtain ⟨s1, c1⟩ := res
      simp only [hg, genLabel] at h
      obtain ⟨hsc1, hsi1⟩ := genExp_state condition s s1 c1 hg
      have hne1 : ({ s1 with labelCounter := s1.labelCounter + 1 } : CState).scopes ≠ [] := by
        show s1.scopes ≠ []
        rw [hsc1]
        exact hne
      cases ht : genStatement { s1 with labelCounter := s1.labelCounter + 1 } thenStatement with
      | error err => simp [ht] at h
      | ok rest =>
        obtain ⟨s3, c3⟩ := rest
        simp only [ht] at h
        have hinv3 := genStatement_frames thenStatement _ s3 c3 hne1 ht
        have hne3 : ({ s3 with labelCounter := s3.labelCounter + 1 } : CState).scopes ≠ [] := by
          show s3.scopes ≠ []
          exact framesInv_ne hinv3 hne1
        cases he : genOptStatement { s3 with labelCounter := s3.labelCounter + 1 } elseStatement with
        | error err => simp [he] at h
        | ok rese =>
          obtain ⟨s5, c5⟩ := rese
          simp only [he] at h
          have hinv5 := genOptStatement_frames elseStatement _ s5 c5 hne3 he
          obtain ⟨h1, -⟩ := okInj h
          have base : framesInv s { s1 with labelCounter := s1.labelCounter + 1 } :=
            framesInv_of_eq hsc1 hsi1
          have mid : framesInv { s1 with labelCounter := s1.labelCounter + 1 }
              { s3 with labelCounter := s3.labelCounter + 1 } :=
            ⟨hinv3.1, hinv3.2.1, hinv3.2.2⟩
          have tail := framesInv_trans (framesInv_trans base mid) hinv5
          rw [← h1]
          exact tail
  | .blockStatement lb stmts rb => by
    intro s s2 code hne h
    rw [genStatement] at h
    cases hg : genStmtList (pushScope s) stmts with
    | error err => simp [hg] at h
    | ok res =>
      obtain ⟨s1, c1⟩ := res
      simp only [hg, popScope] at h
      have hpne : (pushScope s).scopes ≠ [] := by simp [pushScope]
      have hinv := genStmtList_frames stmts (pushScope s) s1 c1 hpne hg
      obtain ⟨h1, -⟩ := okInj h
      have hlen : s1.scopes.length = s.scopes.length + 1 := by
        have := hinv.1
        simpa [pushScope] using this
      have hdl : s1.scopes.dropLast = s.scopes := by
        have := hinv.2.1
        simpa [pushScope, List.dropLast_concat] using this
      have hbal : s1.stackIndex + sizeofInt * ((innerFrame s1).length : Int) = s.stackIndex := by
        have := hinv.2.2
        simpa [pushScope, innerFrame, List.getLastD_concat] using this
      refine framesInv_of_eq ?_ ?_ |>.imp id id
      · rw [← h1]
        show s1.scopes.dropLast = s.scopes
        exact hdl
      · rw [← h1]
        show s1.stackIndex + ((innerFrame s1).length : Int) * sizeofInt = s.stackIndex
        rw [mul_comm]
        exact hbal

/-- Generating an optional else branch preserves the frames invariant. -/
theorem genOptStatement_frames : ∀ (ost : Option Statement) (s s2 : CState) (code : List Instr),
    s.scopes ≠ [] → genOptStatement s ost = .ok (s2, code) → framesInv s s2
  | none => by
    intro s s2 code hne h
    obtain ⟨h1, -⟩ := okInj h
    exact framesInv_of_eq (by rw [← h1]) (by rw [← h1])
  | some st => by
    intro s s2 code hne h
    rw [genOptStatement] at h
    exact genStatement_frames st s s2 code hne h

/-- Generating a statement list preserves the frames invariant. -/
theorem genStmtList_frames : ∀ (sts : List Statement) (s s2 : CState) (code : List Instr),
    s.scopes ≠ [] → genStmtList s sts = .ok (s2, code) → framesInv s s2
  | [] => by
    intro s s2 code hne h
    obtain ⟨h1, -⟩ := okInj h
    exact framesInv_of_eq (by rw [← h1]) (by rw [← h1])
  | st :: rest => by
    intro s s2 code hne h
    rw [genStmtList] at h
    cases hg : genStatement s st with
    | error err => simp [hg] at h
    | ok res =>
      obtain ⟨s1, c1⟩ := res
      simp only [hg] at h
      have hinv1 := genStatement_frames st s s1 c1 hne hg
      cases hr : genStmtList s1 rest with
      | error err => simp [hr] at h
      | ok res2 =>
        obtain ⟨s3, c3⟩ := res2
        simp only [hr] at h
        have hinv3 := genStmtList_frames rest s1 s3 c3 (framesInv_ne hinv1 hne) hr
        obtain ⟨h1, -⟩ := okInj h
        rw [← h1]
        exact framesInv_trans hinv1 hinv3

end

/-- C6: a Block pushes a fresh frame, emits its children, then pops: the
pop emits addq with exactly the popped frame size times eight bytes, adds
the same amount back to the stack index, and afterwards both the scope
stack and the stack index equal their values before the block, so sibling
scopes reuse the same slots. -/
theorem c6_block_pop_restores_stack_index :
    ∀ (lb rb : AnyToken) (stmts : List Statement) (s s2 : CState) (out : List Instr),
      s.scopes ≠ [] →
      genStatement s (.blockStatement lb stmts rb) = .ok (s2, out) →
      ∃ (s1 : CState) (body : List Instr),
        genStmtList (pushScope s) stmts = .ok (s1, body) ∧
        out = body ++ [.addq (.imm (((innerFrame s1).length : Int) * sizeofInt)) (.reg .rsp)] ∧
        s2.stackIndex = s1.stackIndex + ((innerFrame s1).length : Int) * sizeofInt ∧
        s2.scopes = s.scopes ∧
        s2.stackIndex = s.stackIndex := by
  intro lb rb stmts s s2 out hne h
  rw [genStatement] at h
  cases hg : genStmtList (pushScope s) stmts with
  | error err => simp [hg] at h
  | ok res =>
    obtain ⟨s1, c1⟩ := res
    simp only [hg, popScope] at h
    obtain ⟨h1, h2⟩ := okInj h
    have hpne : (pushScope s).scopes ≠ [] := by simp [pushScope]
    have hinv := genStmtList_frames stmts (pushScope s) s1 c1 hpne hg
    have hdl : s1.scopes.dropLast = s.scopes := by
      have := hinv.2.1
      simpa [pushScope, List.dropLast_concat] using this
    have hbal : s1.stackIndex + sizeofInt * ((innerFrame s1).length : Int) = s.stackIndex := by
      have := hinv.2.2
      simpa [pushScope, innerFrame, List.getLastD_concat] using this
    refine ⟨s1, c1, rfl, ?_, ?_, ?_, ?_⟩
    · rw [← h2]
    · rw [← h1]
    · rw [← h1]
      show s1.scopes.dropLast = s.scopes
      exact hdl
    · rw [← h1]
      show s1.stackIndex + ((innerFrame s1).length : Int) * sizeofInt = s.stackIndex
      rw [mul_comm]
      exact hbal

/-- One-declaration block used to witness the block invariant. -/
def c6Stmts : List Statement :=
  [.declareStatement (ptok .KwInt "int") aTok none (ptok .Semicolon ";")]

theorem c6_block_pop_restores_stack_index_witness :
    ∃ (s1 : CState) (body : List Instr),
      genStmtList (pushScope initCState) c6Stmts = .ok (s1, body) ∧
      [Instr.movq (.imm 0) (.reg .rax), .pushq .rax, .addq (.imm 8) (.reg .rsp)] =
        body ++ [.addq (.imm (((innerFrame s1).length : Int) * sizeofInt)) (.reg .rsp)] ∧
      (⟨0, [[]], -8⟩ : CState).stackIndex =
        s1.stackIndex + ((innerFrame s1).length : Int) * sizeofInt ∧
      (⟨0, [[]], -8⟩ : CState).scopes = initCState.scopes ∧
      (⟨0, [[]], -8⟩ : CState).stackIndex = initCState.stackIndex :=
  c6_block_pop_restores_stack_index (ptok .OpenBrace "\x7b") (ptok .CloseBrace "\x7d") c6Stmts
    initCState ⟨0, [[]], -8⟩
    [Instr.movq (.imm 0) (.reg .rax), .pushq .rax, .addq (.imm 8) (.reg .rsp)]
    (by simp [initCState]) rfl

/-- Expressions containing no postfix node and no increment or decrement
unary node: the only expression shapes that reach the generator lvalue
check. -/
def expOk : Exp → Bool
  | .constantExp _ => true
  | .unaryOpExp .Increment _ => false
  | .unaryOpExp .Decrement _ => false
  | .unaryOpExp _ e => expOk e
  | .binaryOpExp _ l r => expOk l && expOk r
  | .assignExp _ _ r => expOk r
  | .commaExp l r => expOk l && expOk r
  | .postfixExp _ _ => false
  | .conditionalExp c t f => expOk c && expOk t && expOk f
  | .varExp _ => true

mutual

/-- Statements whose expressions all satisfy expOk. -/
def stmtOk : Statement → Bool
  | .returnStatement _ e _ => expOk e
  | .declareStatement _ _ (some ini) _ => expOk ini.exp
  | .declareStatement _ _ none _ => true
  | .expStatement e _ => expOk e
  | .ifStatement _ _ c _ th el => expOk c && stmtOk th && optStmtOk el
  | .blockStatement _ sts _ => stmtsOk sts

def optStmtOk : Option Statement → Bool
  | some st => stmtOk st
  | none => true

def stmtsOk : List Statement → Bool
  | [] => true
  | st :: rest => stmtOk st && stmtsOk rest

end

/-- Generic injection for successful parse results. -/
theorem exOkInj {ε α β : Type} {x1 x2 : α} {y1 y2 : β}
    (h : (Except.ok (x1, y1) : Except ε (α × β)) = .ok (x2, y2)) : x1 = x2 ∧ y1 = y2 := by
  cases h
  exact ⟨rfl, rfl⟩

/-- An error result never equals a successful one. -/
theorem errNeOk {ε α : Type} {er : ε} {a : α}
    (h : (Except.error er : Except ε α) = .ok a) : False := by
  cases h

/-- The unary-kind table only produces the three plain unary operators. -/
theorem unaryOpKindGet_shape : ∀ (t : TokenType) (op : UnaryOpKind),
    unaryOpKindGet t = some op →
    op = .Negation ∨ op = .BitwiseComplement ∨ op = .LogicalNegation := by
  intro t op h
  cases t <;> simp [unaryOpKindGet] at h <;> subst h <;> simp

/-- A unary node built from the table keeps the hazard-freedom of its
operand. -/
theorem expOk_unaryOp_of_get {t : TokenType} {op : UnaryOpKind} {e : Exp}
    (h : unaryOpKindGet t = some op) : expOk (.unaryOpExp op e) = expOk e := by
  rcases unaryOpKindGet_shape t op h with h1 | h1 | h1 <;> subst h1 <;> simp [expOk]

mutual

/-- Every expression the expression production returns is hazard-free. -/
theorem parseExpF_ok : ∀ (n : Nat) (ts : List AnyToken) (e : Exp) (ts2 : List AnyToken),
    parseExpF n ts = .ok (e, ts2) → expOk e = true
  | 0 => by
    intro ts e ts2 h
    exact (errNeOk h).elim
  | n + 1 => by
    intro ts e ts2 h
    rw [parseExpF] at h
    exact parseAssignF_ok n ts e ts2 h

theorem parseAssignF_ok : ∀ (n : Nat) (ts : List AnyToken) (e : Exp) (ts2 : List AnyToken),
    parseAssignF n ts = .ok (e, ts2) → expOk e = true
  | 0 => by
    intro ts e ts2 h
    exact (errNeOk h).elim
  | n + 1 => by
    intro ts e ts2 h
    rw [parseAssignF] at h
    cases h1 : parseLogicalOrF n ts with
    | error err => simp [h1] at h
    | ok res =>
      obtain ⟨e1, ts1⟩ := res
      simp only [h1] at h
      have he1 := parseLogicalOrF_ok n ts e1 ts1 h1
      rcases hm : matchTok [.Equal, .PlusEqual, .MinusEqual, .SlashEqual, .StarEqual,
          .PercentEqual, .LessLessEqual, .GreaterGreaterEqual,
          .AmpEqual, .PipeEqual, .CaretEqual] ts1 with ⟨mt, ts3⟩
      rw [hm] at h
      cases mt with
      | none =>
        obtain ⟨h2, -⟩ := exOkInj h
        rw [← h2]
        exact he1
      | some tok =>
        cases e1 with
        | varExp name =>
          cases hk : assignKindGet tok.type with
          | none => simp [hk] at h
          | some kind =>
            simp only [hk] at h
            cases h3 : parseAssignF n ts3 with
            | error err => simp [h3] at h
            | ok res3 =>
              obtain ⟨rhs, ts4⟩ := res3
              simp only [h3] at h
              have hr := parseAssignF_ok n ts3 rhs ts4 h3
              obtain ⟨h4, -⟩ := exOkInj h
              rw [← h4]
              simp [expOk, hr]
        | constantExp v => exact (errNeOk h).elim
        | unaryOpExp op e1 => exact (errNeOk h).elim
        | binaryOpExp op l r => exact (errNeOk h).elim
        | assignExp left kind right => exact (errNeOk h).elim
        | commaExp l r => exact (errNeOk h).elim
        | postfixExp e1 op => exact (errNeOk h).elim
        | conditionalExp c t f => exact (errNeOk h).elim

theorem parseLogicalOrF_ok : ∀ (n : Nat) (ts : List AnyToken) (e : Exp) (ts2 : List AnyToken),
    parseLogicalOrF n ts = .ok (e, ts2) → expOk e = true
  | 0 => by
    intro ts e ts2 h
    exact (errNeOk h).elim
  | n + 1 => by
    intro ts e ts2 h
    rw [parseLogicalOrF] at h
    cases h1 : parseLogicalAndF n ts with
    | error err => simp [h1] at h
    | ok res =>
      obtain ⟨e1, ts1⟩ := res
      simp only [h1] at h
      exact parseLogicalOrLoopF_ok n e1 ts1 e ts2 (parseLogicalAndF_ok n ts e1 ts1 h1) h

theorem parseLogicalOrLoopF_ok : ∀ (n : Nat) (e0 : Exp) (ts : List AnyToken)
    (e : Exp) (ts2 : List AnyToken),
    expOk e0 = true → parseLogicalOrLoopF n e0 ts = .ok (e, ts2) → expOk e = true
  | 0 => by
    intro e0 ts e ts2 h0 h
    exact (errNeOk h).elim
  | n + 1 => by
    intro e0 ts e ts2 h0 h
    rw [parseLogicalOrLoopF] at h
    rcases hm : matchTok [.PipePipe] ts with ⟨mt, ts3⟩
    rw [hm] at h
    cases mt with
    | none =>
      obtain ⟨h2, -⟩ := exOkInj h
      rw [← h2]
      exact h0
    | some tok =>
      cases h2 : parseLogicalAndF n ts3 with
      | error err => simp [h2] at h
      | ok res2 =>
        obtain ⟨rhs, ts4⟩ := res2
        simp only [h2] at h
        have hr := parseLogicalAndF_ok n ts3 rhs ts4 h2
        refine parseLogicalOrLoopF_ok n _ ts4 e ts2 ?_ h
        simp [expOk, h0, hr]

theorem parseLogicalAndF_ok : ∀ (n : Nat) (ts : List AnyToken) (e : Exp) (ts2 : List AnyToken),
    parseLogicalAndF n ts = .ok (e, ts2) → expOk e = true
  | 0 => by
    intro ts e ts2 h
    exact (errNeOk h).elim
  | n + 1 => by
    intro ts e ts2 h
    rw [parseLogicalAndF] at h
    cases h1 : parseEqualityF n ts with
    | error err => simp [h1] at h
    | ok res =>
      obtain ⟨e1, ts1⟩ := res
      simp only [h1] at h
      exact parseLogicalAndLoopF_ok n e1 ts1 e ts2 (parseEqualityF_ok n ts e1 ts1 h1) h

theorem parseLogicalAndLoopF_ok : ∀ (n : Nat) (e0 : Exp) (ts : List AnyToken)
    (e : Exp) (ts2 : List AnyToken),
    expOk e0 = true → parseLogicalAndLoopF n e0 ts = .ok (e, ts2) → expOk e = true
  | 0 => by
    intro e0 ts e ts2 h0 h
    exact (errNeOk h).elim
  | n + 1 => by
    intro e0 ts e ts2 h0 h
    rw [parseLogicalAndLoopF] at h
    rcases hm : matchTok [.AmpAmp] ts with ⟨mt, ts3⟩
    rw [hm] at h
    cases mt with
    | none =>
      obtain ⟨h2, -⟩ := exOkInj h
      rw [← h2]
      exact h0
    | some tok =>
      cases h2 : parseEqualityF n ts3 with
      | error err => simp [h2] at h
      | ok res2 =>
        obtain ⟨rhs, ts4⟩ := res2
        simp only [h2] at h
        have hr := parseEqualityF_ok n ts3 rhs ts4 h2
        refine parseLogicalAndLoopF_ok n _ ts4 e ts2 ?_ h
        simp [expOk, h0, hr]

theorem parseEqualityF_ok : ∀ (n : Nat) (ts : List AnyToken) (e : Exp) (ts2 : List AnyToken),
    parseEqualityF n ts = .ok (e, ts2) → expOk e = true
  | 0 => by
    intro ts e ts2 h
    exact (errNeOk h).elim
  | n + 1 => by
    intro ts e ts2 h
    rw [parseEqualityF] at h
    cases h1 : parseRelationalF n ts with
    | error err => simp [h1] at h
    | ok res =>
      obtain ⟨e1, ts1⟩ := res
      simp only [h1] at h
      exact parseEqualityLoopF_ok n e1 ts1 e ts2 (parseRelationalF_ok n ts e1 ts1 h1) h

theorem parseEqualityLoopF_ok : ∀ (n : Nat) (e0 : Exp) (ts : List AnyToken)
    (e : Exp) (ts2 : List AnyToken),
    expOk e0 = true → parseEqualityLoopF n e0 ts = .ok (e, ts2) → expOk e = true
  | 0 => by
    intro e0 ts e ts2 h0 h
    exact (errNeOk h).elim
  | n + 1 => by
    intro e0 ts e ts2 h0 h
    rw [parseEqualityLoopF] at h
    rcases hm : matchTok [.EqualEqual, .BangEqual] ts with ⟨mt, ts3⟩
    rw [hm] at h
    cases mt with
    | none =>
      obtain ⟨h2, -⟩ := exOkInj h
      rw [← h2]
      exact h0
    | some tok =>
      cases hk : binaryOpKindGet tok.type with
      | none => simp [hk] at h
      | some op =>
        simp only [hk] at h
        cases h2 : parseRelationalF n ts3 with
        | error err => simp [h2] at h
        | ok res2 =>
          obtain ⟨rhs, ts4⟩ := res2
          simp only [h2] at h
          have hr := parseRelationalF_ok n ts3 rhs ts4 h2
          refine parseEqualityLoopF_ok n _ ts4 e ts2 ?_ h
          simp [expOk, h0, hr]

theorem parseRelationalF_ok : ∀ (n : Nat) (ts : List AnyToken) (e : Exp) (ts2 : List AnyToken),
    parseRelationalF n ts = .ok (e, ts2) → expOk e = true
  | 0 => by
    intro ts e ts2 h
    exact (errNeOk h).elim
  | n + 1 => by
    intro ts e ts2 h
    rw [parseRelationalF] at h
    cases h1 : parseShiftF n ts with
    | error err => simp [h1] at h
    | ok res =>
      obtain ⟨e1, ts1⟩ := res
      simp only [h1] at h
      exact parseRelationalLoopF_ok n e1 ts1 e ts2 (parseShiftF_ok n ts e1 ts1 h1) h

theorem parseRelationalLoopF_ok : ∀ (n : Nat) (e0 : Exp) (ts : List AnyToken)
    (e : Exp) (ts2 : List AnyToken),
    expOk e0 = true → parseRelationalLoopF n e0 ts = .ok (e, ts2) → expOk e = true
  | 0 => by
    intro e0 ts e ts2 h0 h
    exact (errNeOk h).elim
  | n + 1 => by
    intro e0 ts e ts2 h0 h
    rw [parseRelationalLoopF] at h
    rcases hm : matchTok [.Less, .LessEqual, .Greater, .GreaterEqual] ts with ⟨mt, ts3⟩
    rw [hm] at h
    cases mt with
    | none =>
      obtain ⟨h2, -⟩ := exOkInj h
      rw [← h2]
      exact h0
    | some tok =>
      cases hk : binaryOpKindGet tok.type with
      | none => simp [hk] at h
      | some op =>
        simp only [hk] at h
        cases h2 : parseShiftF n ts3 with
        | error err => simp [h2] at h
        | ok res2 =>
          obtain ⟨rhs, ts4⟩ := res2
          simp only [h2] at h
          have hr := parseShiftF_ok n ts3 rhs ts4 h2
          refine parseRelationalLoopF_ok n _ ts4 e ts2 ?_ h
          simp [expOk, h0, hr]

theorem parseShiftF_ok : ∀ (n : Nat) (ts : List AnyToken) (e : Exp) (ts2 : List AnyToken),
    parseShiftF n ts = .ok (e, ts2) → expOk e = true
  | 0 => by
    intro ts e ts2 h
    exact (errNeOk h).elim
  | n + 1 => by
    intro ts e ts2 h
    rw [parseShiftF] at h
    cases h1 : parseAdditiveF n ts with
    | error err => simp [h1] at h
    | ok res =>
      obtain ⟨e1, ts1⟩ := res
      simp only [h1] at h
      exact parseShiftLoopF_ok n e1 ts1 e ts2 (parseAdditiveF_ok n ts e1 ts1 h1) h

theorem parseShiftLoopF_ok : ∀ (n : Nat) (e0 : Exp) (ts : List AnyToken)
    (e : Exp) (ts2 : List AnyToken),
    expOk e0 = true → parseShiftLoopF n e0 ts = .ok (e, ts2) → expOk e = true
  | 0 => by
    intro e0 ts e ts2 h0 h
    exact (errNeOk h).elim
  | n + 1 => by
    intro e0 ts e ts2 h0 h
    rw [parseShiftLoopF] at h
    rcases hm : matchTok [.LessLess, .GreaterGreater] ts with ⟨mt, ts3⟩
    rw [hm] at h
    cases mt with
    | none =>
      obtain ⟨h2, -⟩ := exOkInj h
      rw [← h2]
      exact h0
    | some tok =>
      cases hk : binaryOpKindGet tok.type with
      | none => simp [hk] at h
      | some op =>
        simp only [hk] at h
        cases h2 : parseAdditiveF n ts3 with
        | error err => simp [h2] at h
        | ok res2 =>
          obtain ⟨rhs, ts4⟩ := res2
          simp only [h2] at h
          have hr := parseAdditiveF_ok n ts3 rhs ts4 h2
          refine parseShiftLoopF_ok n _ ts4 e ts2 ?_ h
          simp [expOk, h0, hr]

theorem parseAdditiveF_ok : ∀ (n : Nat) (ts : List AnyToken) (e : Exp) (ts2 : List AnyToken),
    parseAdditiveF n ts = .ok (e, ts2) → expOk e = true
  | 0 => by
    intro ts e ts2 h
    exact (errNeOk h).elim
  | n + 1 => by
    intro ts e ts2 h
    rw [parseAdditiveF] at h
    cases h1 : parseTermF n ts with
    | error err => simp [h1] at h
    | ok res =>
      obtain ⟨e1, ts1⟩ := res
      simp only [h1] at h
      exact parseAdditiveLoopF_ok n e1 ts1 e ts2 (parseTermF_ok n ts e1 ts1 h1) h

theorem parseAdditiveLoopF_ok : ∀ (n : Nat) (e0 : Exp) (ts : List AnyToken)
    (e : Exp) (ts2 : List AnyToken),
    expOk e0 = true → parseAdditiveLoopF n e0 ts = .ok (e, ts2) → expOk e = true
  | 0 => by
    intro e0 ts e ts2 h0 h
    exact (errNeOk h).elim
  | n + 1 => by
    intro e0 ts e ts2 h0 h
    rw [parseAdditiveLoopF] at h
    rcases hm : matchTok [.Plus, .Minus] ts with ⟨mt, ts3⟩
    rw [hm] at h
    cases mt with
    | none =>
      obtain ⟨h2, -⟩ := exOkInj h
      rw [← h2]
      exact h0
    | some tok =>
      cases hk : binaryOpKindGet tok.type with
      | none => simp [hk] at h
      | some op =>
        simp only [hk] at h
        cases h2 : parseTermF n ts3 with
        | error err => simp [h2] at h
        | ok res2 =>
          obtain ⟨rhs, ts4⟩ := res2
          simp only [h2] at h
          have hr := parseTermF_ok n ts3 rhs ts4 h2
          refine parseAdditiveLoopF_ok n _ ts4 e ts2 ?_ h
          simp [expOk, h0, hr]

theorem parseTermF_ok : ∀ (n : Nat) (ts : List AnyToken) (e : Exp) (ts2 : List AnyToken),
    parseTermF n ts = .ok (e, ts2) → expOk e = true
  | 0 => by
    intro ts e ts2 h
    exact (errNeOk h).elim
  | n + 1 => by
    intro ts e ts2 h
    rw [parseTermF] at h
    cases h1 : parseFactorF n ts with
    | error err => simp [h1] at h
    | ok res =>
      obtain ⟨e1, ts1⟩ := res
      simp only [h1] at h
      exact parseTermLoopF_ok n e1 ts1 e ts2 (parseFactorF_ok n ts e1 ts1 h1) h

theorem parseTermLoopF_ok : ∀ (n : Nat) (e0 : Exp) (ts : List AnyToken)
    (e : Exp) (ts2 : List AnyToken),
    expOk e0 = true → parseTermLoopF n e0 ts = .ok (e, ts2) → expOk e = true
  | 0 => by
    intro e0 ts e ts2 h0 h
    exact (errNeOk h).elim
  | n + 1 => by
    intro e0 ts e ts2 h0 h
    rw [parseTermLoopF] at h
    rcases hm : matchTok [.Star, .Slash, .Percent] ts with ⟨mt, ts3⟩
    rw [hm] at h
    cases mt with
    | none =>
      obtain ⟨h2, -⟩ := exOkInj h
      rw [← h2]
      exact h0
    | some tok =>
      cases hk : binaryOpKindGet tok.type with
      | none => simp [hk] at h
      | some op =>
        simp only [hk] at h
        cases h2 : parseFactorF n ts3 with
        | error err => simp [h2] at h
        | ok res2 =>
          obtain ⟨rhs, ts4⟩ := res2
          simp only [h2] at h
          have hr := parseFactorF_ok n ts3 rhs ts4 h2
          refine parseTermLoopF_ok n _ ts4 e ts2 ?_ h
          simp [expOk, h0, hr]

theorem parseFactorF_ok : ∀ (n : Nat) (ts : List AnyToken) (e : Exp) (ts2 : List AnyToken),
    parseFactorF n ts = .ok (e, ts2) → expOk e = true
  | 0 => by
    intro ts e ts2 h
    exact (errNeOk h).elim
  | n + 1 => by
    intro ts e ts2 h
    rw [parseFactorF] at h
    rcases hp : matchTok [.OpenParen] ts with ⟨mp, tsp⟩
    rw [hp] at h
    cases mp with
    | some tok =>
      cases h1 : parseExpF n tsp with
      | error err => simp [h1] at h
      | ok res =>
        obtain ⟨e1, ts1⟩ := res
        simp only [h1] at h
        cases h2 : expectTok .CloseParen ts1 with
        | error err => simp [h2] at h
        | ok res2 =>
          obtain ⟨tok2, ts3⟩ := res2
          simp only [h2] at h
          obtain ⟨h3, -⟩ := exOkInj h
          rw [← h3]
          exact parseExpF_ok n tsp e1 ts1 h1
    | none =>
      rcases hu : matchTok [.Minus, .Tilde, .Bang] tsp with ⟨mu, tsu⟩
      simp only [hu] at h
      cases mu with
      | some tok =>
        cases hk : unaryOpKindGet tok.type with
        | none => simp [hk] at h
        | some op =>
          simp only [hk] at h
          cases h1 : parseFactorF n tsu with
          | error err => simp [h1] at h
          | ok res =>
            obtain ⟨e1, ts1⟩ := res
            simp only [h1] at h
            obtain ⟨h3, -⟩ := exOkInj h
            rw [← h3, expOk_unaryOp_of_get hk]
            exact parseFactorF_ok n tsu e1 ts1 h1
      | none =>
        rcases hd : matchTok [.DecimalConstant] tsu with ⟨md, tsd⟩
        simp only [hd] at h
        cases md with
        | some tok =>
          obtain ⟨h3, -⟩ := exOkInj h
          rw [← h3]
          rfl
        | none =>
          rcases hi : matchTok [.Identifier] tsd with ⟨mi, tsi⟩
          simp only [hi] at h
          cases mi with
          | some tok =>
            obtain ⟨h3, -⟩ := exOkInj h
            rw [← h3]
            rfl
          | none =>
            cases tsi with
            | nil => exact (errNeOk h).elim
            | cons t rest => exact (errNeOk h).elim

end

mutual

/-- Every statement the statement production returns is hazard-free. -/
theorem parseStatementF_ok : ∀ (n : Nat) (ts : List AnyToken) (st : Statement) (ts2 : List AnyToken),
    parseStatementF n ts = .ok (st, ts2) → stmtOk st = true
  | 0 => by
    intro ts st ts2 h
    exact (errNeOk h).elim
  | n + 1 => by
    intro ts st ts2 h
    rw [parseStatementF] at h
    cases hb : lookTok .KwReturn ts with
    | true =>
      simp only [hb, if_true] at h
      exact parseReturnStatementF_ok n ts st ts2 h
    | false =>
      simp only [hb, Bool.false_eq_true, if_false] at h
      cases hb2 : lookTok .KwInt ts with
      | true =>
        simp only [hb2, if_true] at h
        exact parseDeclareStatementF_ok n ts st ts2 h
      | false =>
        simp only [hb2, Bool.false_eq_true, if_false] at h
        exact parseExpStatementF_ok n ts st ts2 h

theorem parseReturnStatementF_ok : ∀ (n : Nat) (ts : List AnyToken) (st : Statement)
    (ts2 : List AnyToken),
    parseReturnStatementF n ts = .ok (st, ts2) → stmtOk st = true
  | 0 => by
    intro ts st ts2 h
    exact (errNeOk h).elim
  | n + 1 => by
    intro ts st ts2 h
    rw [parseReturnStatementF] at h
    cases h1 : expectTok .KwReturn ts with
    | error err => simp [h1] at h
    | ok res1 =>
      obtain ⟨kw, ts1⟩ := res1
      simp only [h1] at h
      cases h2 : parseExpF n ts1 with
      | error err => simp [h2] at h
      | ok res2 =>
        obtain ⟨e1, tse⟩ := res2
        simp only [h2] at h
        cases h3 : expectTok .Semicolon tse with
        | error err => simp [h3] at h
        | ok res3 =>
          obtain ⟨semi, ts3⟩ := res3
          simp only [h3] at h
          obtain ⟨h4, -⟩ := exOkInj h
          rw [← h4]
          simpa [stmtOk] using parseExpF_ok n ts1 e1 tse h2

theorem parseDeclareStatementF_ok : ∀ (n : Nat) (ts : List AnyToken) (st : Statement)
    (ts2 : List AnyToken),
    parseDeclareStatementF n ts = .ok (st, ts2) → stmtOk st = true
  | 0 => by
    intro ts st ts2 h
    exact (errNeOk h).elim
  | n + 1 => by
    intro ts st ts2 h
    rw [parseDeclareStatementF] at h
    cases h1 : expectTok .KwInt ts with
    | error err => simp [h1] at h
    | ok res1 =>
      obtain ⟨kw, ts1⟩ := res1
      simp only [h1] at h
      cases h2 : expectTok .Identifier ts1 with
      | error err => simp [h2] at h
      | ok res2 =>
        obtain ⟨idTok, tsi⟩ := res2
        simp only [h2] at h
        rcases hm : matchTok [.Equal] tsi with ⟨mt, ts3⟩
        rw [hm] at h
        cases mt with
        | some eqTok =>
          cases h3 : parseExpF n ts3 with
          | error err => simp [h3] at h
          | ok res3 =>
            obtain ⟨e1, tse⟩ := res3
            simp only [h3] at h
            cases h4 : expectTok .Semicolon tse with
            | error err => simp [h4] at h
            | ok res4 =>
              obtain ⟨semi, ts4⟩ := res4
              simp only [h4] at h
              obtain ⟨h5, -⟩ := exOkInj h
              rw [← h5]
              simpa [stmtOk] using parseExpF_ok n ts3 e1 tse h3
        | none =>
          cases h4 : expectTok .Semicolon ts3 with
          | error err => simp [h4] at h
          | ok res4 =>
            obtain ⟨semi, ts4⟩ := res4
            simp only [h4] at h
            obtain ⟨h5, -⟩ := exOkInj h
            rw [← h5]
            rfl

theorem parseExpStatementF_ok : ∀ (n : Nat) (ts : List AnyToken) (st : Statement)
    (ts2 : List AnyToken),
    parseExpStatementF n ts = .ok (st, ts2) → stmtOk st = true
  | 0 => by
    intro ts st ts2 h
    exact (errNeOk h).elim
  | n + 1 => by
    intro ts st ts2 h
    rw [parseExpStatementF] at h
    cases h1 : parseExpF n ts with
    | error err => simp [h1] at h
    | ok res1 =>
      obtain ⟨e1, ts1⟩ := res1
      simp only [h1] at h
      cases h2 : expectTok .Semicolon ts1 with
      | error err => simp [h2] at h
      | ok res2 =>
        obtain ⟨semi, ts3⟩ := res2
        simp only [h2] at h
        obtain ⟨h3, -⟩ := exOkInj h
        rw [← h3]
        simpa [stmtOk] using parseExpF_ok n ts e1 ts1 h1

theorem parseStmtsF_ok : ∀ (n : Nat) (ts : List AnyToken) (sts : List Statement)
    (ts2 : List AnyToken),
    parseStmtsF n ts = .ok (sts, ts2) → stmtsOk sts = true
  | 0 => by
    intro ts sts ts2 h
    exact (errNeOk h).elim
  | n + 1 => by
    intro ts sts ts2 h
    rw [parseStmtsF] at h
    cases hb : lookTok .CloseBrace ts with
    | true =>
      simp only [hb, if_true] at h
      obtain ⟨h1, -⟩ := exOkInj h
      rw [← h1]
      rfl
    | false =>
      simp only [hb, Bool.false_eq_true, if_false] at h
      cases h1 : parseStatementF n ts with
      | error err => simp [h1] at h
      | ok res1 =>
        obtain ⟨st1, ts1⟩ := res1
        simp only [h1] at h
        cases h2 : parseStmtsF n ts1 with
        | error err => simp [h2] at h
        | ok res2 =>
          obtain ⟨rest, ts3⟩ := res2
          simp only [h2] at h
          obtain ⟨h3, -⟩ := exOkInj h
          rw [← h3]
          have ha := parseStatementF_ok n ts st1 ts1 h1
          have hb2 := parseStmtsF_ok n ts1 rest ts3 h2
          simp [stmtsOk, ha, hb2]

end

/-- The statements of a parsed function are hazard-free. -/
theorem parseFunctionF_ok : ∀ (n : Nat) (ts : List AnyToken) (f : Function)
    (ts2 : List AnyToken),
    parseFunctionF n ts = .ok (f, ts2) → stmtsOk f.statements = true := by
  intro n ts f ts2 h
  match n with
  | 0 => exact (errNeOk h).elim
  | n + 1 =>
    rw [parseFunctionF] at h
    cases h1 : expectTok .KwInt ts with
    | error err => simp [h1] at h
    | ok res1 =>
      obtain ⟨kw, ts1⟩ := res1
      simp only [h1] at h
      cases h2 : expectTok .Identifier ts1 with
      | error err => simp [h2] at h
      | ok res2 =>
        obtain ⟨idTok, tsi⟩ := res2
        simp only [h2] at h
        cases h3 : expectTok .OpenParen tsi with
        | error err => simp [h3] at h
        | ok res3 =>
          obtain ⟨op, ts3⟩ := res3
          simp only [h3] at h
          cases h4 : expectTok .CloseParen ts3 with
          | error err => simp [h4] at h
          | ok res4 =>
            obtain ⟨cp, ts4⟩ := res4
            simp only [h4] at h
            cases h5 : expectTok .OpenBrace ts4 with
            | error err => simp [h5] at h
            | ok res5 =>
              obtain ⟨ob, ts5⟩ := res5
              simp only [h5] at h
              cases h6 : parseStmtsF n ts5 with
              | error err => simp [h6] at h
              | ok res6 =>
                obtain ⟨stmts, ts6⟩ := res6
                simp only [h6] at h
                cases h7 : expectTok .CloseBrace ts6 with
                | error err => simp [h7] at h
                | ok res7 =>
                  obtain ⟨cb, ts7⟩ := res7
                  simp only [h7] at h
                  obtain ⟨h8, -⟩ := exOkInj h
                  rw [← h8]
                  exact parseStmtsF_ok n ts5 stmts ts6 h6

/-- The statements of a parsed program are hazard-free. -/
theorem parseProgramF_ok : ∀ (fuel : Nat) (ts : List AnyToken) (prog : Program),
    parseProgramF fuel ts = .ok prog → stmtsOk prog.function.statements = true := by
  intro fuel ts prog h
  rw [parseProgramF] at h
  cases h1 : parseFunctionF fuel ts with
  | error err => simp [h1] at h
  | ok res1 =>
    obtain ⟨f, rest⟩ := res1
    simp only [h1] at h
    cases rest with
    | nil =>
      cases h
      exact parseFunctionF_ok fuel ts f [] h1
    | cons t r => simp at h

/-- A success result never equals an error result. -/
theorem okNeErr {ε α : Type} {er : ε} {a : α}
    (h : (Except.ok a : Except ε α) = .error er) : False := by
  cases h

/-- A failing variable lookup reports the not-declared error. -/
theorem getVar_error_shape (s : CState) (name : String) (err : CompileError)
    (h : getVar s name = .error err) : err = .notDeclared name :=
  getVarAux_error_shape s.scopes name (s.scopes.length - 1) err h

/-- Hazard-free expressions never raise the not-an-lvalue compile error:
the lvalue check is reached only from postfix and from the
increment or decrement unary operators. -/
theorem genExp_no_lvalue (e : Exp) : ∀ (s : CState),
    expOk e = true → genExp s e ≠ .error .notAnLvalue := by
  induction e with
  | constantExp v =>
    intro s hok hcontra
    exact okNeErr hcontra
  | unaryOpExp op e ih =>
    intro s hok hcontra
    cases op with
    | Increment => simp [expOk] at hok
    | Decrement => simp [expOk] at hok
    | Negation =>
      rw [genExp] at hcontra
      simp only [expOk] at hok
      cases hg : genExp s e with
      | error err =>
        simp only [hg, Except.error.injEq] at hcontra
        rw [hcontra] at hg
        exact ih s hok hg
      | ok res =>
        obtain ⟨s1, c1⟩ := res
        simp only [hg] at hcontra
        exact okNeErr hcontra
    | BitwiseComplement =>
      rw [genExp] at hcontra
      simp only [expOk] at hok
      cases hg : genExp s e with
      | error err =>
        simp only [hg, Except.error.injEq] at hcontra
        rw [hcontra] at hg
        exact ih s hok hg
      | ok res =>
        obtain ⟨s1, c1⟩ := res
        simp only [hg] at hcontra
        exact okNeErr hcontra
    | LogicalNegation =>
      rw [genExp] at hcontra
      simp only [expOk] at hok
      cases hg : genExp s e with
      | error err =>
        simp only [hg, Except.error.injEq] at hcontra
        rw [hcontra] at hg
        exact ih s hok hg
      | ok res =>
        obtain ⟨s1, c1⟩ := res
        simp only [hg] at hcontra
        exact okNeErr hcontra
  | binaryOpExp op l r ihl ihr =>
    intro s hok hcontra
    simp only [expOk, Bool.and_eq_true] at hok
    obtain ⟨hokl, hokr⟩ := hok
    cases op
    case LogicalAnd =>
      rw [genExp] at hcontra
      cases hl : genExp s l with
      | error err =>
        simp only [hl, Except.error.injEq] at hcontra
        rw [hcontra] at hl
        exact ihl s hokl hl
      | ok resl =>
        obtain ⟨s1, c1⟩ := resl
        simp only [hl, genLabel] at hcontra
        cases hr : genExp { s1 with labelCounter := s1.labelCounter + 1 } r with
        | error err =>
          simp only [hr, Except.error.injEq] at hcontra
          rw [hcontra] at hr
          exact ihr _ hokr hr
        | ok resr =>
          obtain ⟨s3, c3⟩ := resr
          simp only [hr] at hcontra
          exact okNeErr hcontra
    case LogicalOr =>
      rw [genExp] at hcontra
      cases hl : genExp s l with
      | error err =>
        simp only [hl, Except.error.injEq] at hcontra
        rw [hcontra] at hl
        exact ihl s hokl hl
      | ok resl =>
        obtain ⟨s1, c1⟩ := resl
        simp only [hl, genLabel] at hcontra
        cases hr : genExp { s1 with labelCounter := s1.labelCounter + 1 } r with
        | error err =>
          simp only [hr, Except.error.injEq] at hcontra
          rw [hcontra] at hr
          exact ihr _ hokr hr
        | ok resr =>
          obtain ⟨s3, c3⟩ := resr
          simp only [hr] at hcontra
          exact okNeErr hcontra
    all_goals (
      rw [genExp] at hcontra
      cases hl : genExp s l with
      | error err =>
        simp only [hl, Except.error.injEq] at hcontra
        rw [hcontra] at hl
        exact ihl s hokl hl
      | ok resl =>
        obtain ⟨s1, c1⟩ := resl
        simp only [hl] at hcontra
        cases hr : genExp s1 r with
        | error err =>
          simp only [hr, Except.error.injEq] at hcontra
          rw [hcontra] at hr
          exact ihr s1 hokr hr
        | ok resr =>
          obtain ⟨s3, c3⟩ := resr
          simp only [hr] at hcontra
          exact okNeErr hcontra
      all_goals simp)
  | assignExp left kind right ih =>
    intro s hok hcontra
    simp only [expOk] at hok
    rw [genExp] at hcontra
    cases hg : genExp s right with
    | error err =>
      simp only [hg, Except.error.injEq] at hcontra
      rw [hcontra] at hg
      exact ih s hok hg
    | ok res =>
      obtain ⟨s1, c1⟩ := res
      simp only [hg] at hcontra
      cases hv : getVar s1 left.value with
      | error err =>
        simp only [hv, Except.error.injEq] at hcontra
        rw [hcontra] at hv
        have := getVar_error_shape s1 left.value _ hv
        simp at this
      | ok off =>
        simp only [hv] at hcontra
        exact okNeErr hcontra
  | commaExp l r ihl ihr =>
    intro s hok hcontra
    simp only [expOk, Bool.and_eq_true] at hok
    obtain ⟨hokl, hokr⟩ := hok
    rw [genExp] at hcontra
    cases hl : genExp s l with
    | error err =>
      simp only [hl, Except.error.injEq] at hcontra
      rw [hcontra] at hl
      exact ihl s hokl hl
    | ok resl =>
      obtain ⟨s1, c1⟩ := resl
      simp only [hl] at hcontra
      cases hr : genExp s1 r with
      | error err =>
        simp only [hr, Except.error.injEq] at hcontra
        rw [hcontra] at hr
        exact ihr s1 hokr hr
      | ok resr =>
        obtain ⟨s3, c3⟩ := resr
        simp only [hr] at hcontra
        exact okNeErr hcontra
  | postfixExp e op ih =>
    intro s hok hcontra
    simp [expOk] at hok
  | conditionalExp c t f ihc iht ihf =>
    intro s hok hcontra
    simp only [expOk, Bool.and_eq_true] at hok
    obtain ⟨⟨hokc, hokt⟩, hokf⟩ := hok
    rw [genExp] at hcontra
    cases hc : genExp s c with
    | error err =>
      simp only [hc, Except.error.injEq] at hcontra
      rw [hcontra] at hc
      exact ihc s hokc hc
    | ok resc =>
      obtain ⟨s1, c1⟩ := resc
      simp only [hc, genLabel] at hcontra
      cases ht : genExp { s1 with labelCounter := s1.labelCounter + 1 } t with
      | error err =>
        simp only [ht, Except.error.injEq] at hcontra
        rw [hcontra] at ht
        exact iht _ hokt ht
      | ok rest =>
        obtain ⟨s3, c3⟩ := rest
        simp only [ht] at hcontra
        cases hf : genExp { s3 with labelCounter := s3.labelCounter + 1 } f with
        | error err =>
          simp only [hf, Except.error.injEq] at hcontra
          rw [hcontra] at hf
          exact ihf _ hokf hf
        | ok resf =>
          obtain ⟨s5, c5⟩ := resf
          simp only [hf] at hcontra
          exact okNeErr hcontra
  | varExp name =>
    intro s hok hcontra
    rw [genExp] at hcontra
    cases hv : getVar s name.value with
    | error err =>
      simp only [hv, Except.error.injEq] at hcontra
      rw [hcontra] at hv
      have := getVar_error_shape s name.value _ hv
      simp at this
    | ok off =>
      simp only [hv] at hcontra
      exact okNeErr hcontra

mutual

/-- Hazard-free statements never raise the not-an-lvalue compile error. -/
theorem genStatement_no_lvalue : ∀ (st : Statement) (s : CState),
    stmtOk st = true → genStatement s st ≠ .error .notAnLvalue
  | .returnStatement kw e semi => by
    intro s hok hcontra
    simp only [stmtOk] at hok
    rw [genStatement] at hcontra
    cases hg : genExp s e with
    | error err =>
      simp only [hg, Except.error.injEq] at hcontra
      rw [hcontra] at hg
      exact genExp_no_lvalue e s hok hg
    | ok res =>
      obtain ⟨s1, c1⟩ := res
      simp only [hg] at hcontra
      exact okNeErr hcontra
  | .expStatement e semi => by
    intro s hok hcontra
    simp only [stmtOk] at hok
    simp only [genStatement] at hcontra
    exact genExp_no_lvalue e s hok hcontra
  | .declareStatement kw id ini semi => by
    intro s hok hcontra
    cases ini with
    | none =>
      rw [genStatement] at hcontra
      cases hl : frameLookup (innerFrame s) id.value with
      | some v => simp [hl] at hcontra
      | none =>
        simp only [hl] at hcontra
        exact okNeErr hcontra
    | some ini =>
      simp only [stmtOk] at hok
      rw [genStatement] at hcontra
      cases hl : frameLookup (innerFrame s) id.value with
      | some v => simp [hl] at hcontra
      | none =>
        simp only [hl] at hcontra
        cases hg : genExp s ini.exp with
        | error err =>
          simp only [hg, Except.error.injEq] at hcontra
          rw [hcontra] at hg
          exact genExp_no_lvalue ini.exp s hok hg
        | ok res =>
          obtain ⟨s1, c1⟩ := res
          simp only [hg] at hcontra
          exact okNeErr hcontra
  | .ifStatement ifKw lp condition rp thenStatement elseStatement => by
    intro s hok hcontra
    simp only [stmtOk, Bool.and_eq_true] at hok
    obtain ⟨⟨hokc, hokt⟩, hoke⟩ := hok
    rw [genStatement] at hcontra
    cases hg : genExp s condition with
    | error err =>
      simp only [hg, Except.error.injEq] at hcontra
      rw [hcontra] at hg
      exact genExp_no_lvalue condition s hokc hg
    | ok res =>
      obtain ⟨s1, c1⟩ := res
      simp only [hg, genLabel] at hcontra
      cases ht : genStatement { s1 with labelCounter := s1.labelCounter + 1 } thenStatement with
      | error err =>
        simp only [ht, Except.error.injEq] at hcontra
        rw [hcontra] at ht
        exact genStatement_no_lvalue thenStatement _ hokt ht
      | ok rest =>
        obtain ⟨s3, c3⟩ := rest
        simp only [ht] at hcontra
        cases he : genOptStatement { s3 with labelCounter := s3.labelCounter + 1 } elseStatement with
        | error err =>
          simp only [he, Except.error.injEq] at hcontra
          rw [hcontra] at he
          exact genOptStatement_no_lvalue elseStatement _ hoke he
        | ok rese =>
          obtain ⟨s5, c5⟩ := rese
          simp only [he] at hcontra
          exact okNeErr hcontra
  | .blockStatement lb stmts rb => by
    intro s hok hcontra
    simp only [stmtOk] at hok
    rw [genStatement] at hcontra
    cases hg : genStmtList (pushScope s) stmts with
    | error err =>
      simp only [hg, Except.error.injEq] at hcontra
      rw [hcontra] at hg
      exact genStmtList_no_lvalue stmts _ hok hg
    | ok res =>
      obtain ⟨s1, c1⟩ := res
      simp only [hg, popScope] at hcontra
      exact okNeErr hcontra

theorem genOptStatement_no_lvalue : ∀ (ost : Option Statement) (s : CState),
    optStmtOk ost = true → genOptStatement s ost ≠ .error .notAnLvalue
  | none => by
    intro s hok hcontra
    exact okNeErr hcontra
  | some st => by
    intro s hok hcontra
    simp only [optStmtOk] at hok
    rw [genOptStatement] at hcontra
    exact genStatement_no_lvalue st s hok hcontra

theorem genStmtList_no_lvalue : ∀ (sts : List Statement) (s : CState),
    stmtsOk sts = true → genStmtList s sts ≠ .error .notAnLvalue
  | [] => by
    intro s hok hcontra
    exact okNeErr hcontra
  | st :: rest => by
    intro s hok hcontra
    simp only [stmtsOk, Bool.and_eq_true] at hok
    obtain ⟨hok1, hok2⟩ := hok
    rw [genStmtList] at hcontra
    cases hg : genStatement s st with
    | error err =>
      simp only [hg, Except.error.injEq] at hcontra
      rw [hcontra] at hg
      exact genStatement_no_lvalue st s hok1 hg
    | ok res =>
      obtain ⟨s1, c1⟩ := res
      simp only [hg] at hcontra
      cases hr : genStmtList s1 rest with
      | error err =>
        simp only [hr, Except.error.injEq] at hcontra
        rw [hcontra] at hr
        exact genStmtList_no_lvalue rest s1 hok2 hr
      | ok res2 =>
        obtain ⟨s3, c3⟩ := res2
        simp only [hr] at hcontra
        exact okNeErr hcontra

end

/-- A program whose statements are hazard-free never raises the
not-an-lvalue error through Compiler.generate. -/
theorem dragonpyGenerate_no_lvalue (p : Program)
    (hok : stmtsOk p.function.statements = true) :
    dragonpyGenerate p ≠ .error .notAnLvalue := by
  intro hcontra
  rw [dragonpyGenerate] at hcontra
  cases hg : generateInstrs p with
  | ok code =>
    simp only [hg] at hcontra
    exact okNeErr hcontra
  | error err =>
    simp only [hg, Except.error.injEq] at hcontra
    subst hcontra
    rw [generateInstrs] at hg
    cases hf : genFunction initCState p.function with
    | ok res =>
      obtain ⟨s1, c1⟩ := res
      simp only [hf] at hg
      exact okNeErr hg
    | error err2 =>
      simp only [hf, Except.error.injEq] at hg
      subst hg
      rw [genFunction] at hf
      cases hl : genStmtList initCState p.function.statements with
      | ok res =>
        obtain ⟨s1, c1⟩ := res
        simp only [hl] at hf
        exact okNeErr hf
      | error err3 =>
        simp only [hl, Except.error.injEq] at hf
        subst hf
        exact genStmtList_no_lvalue p.function.statements initCState hok hl

/-- C10: for every Program the richer parser actually produces, the
generator never reaches its not-an-lvalue branch: the parser checks
assignment targets during parsing and constructs neither
prefix-increment/decrement nor postfix nodes, the only paths into the
lvalue check. -/
theorem c10_lvalue_error_unreachable :
    ∀ (fuel : Nat) (ts : List AnyToken) (prog : Program),
      parseProgramF fuel ts = .ok prog →
      dragonpyGenerate prog ≠ .error .notAnLvalue := by
  intro fuel ts prog h
  exact dragonpyGenerate_no_lvalue prog (parseProgramF_ok fuel ts prog h)

/-- Token list for int main() { return 2; }. -/
def c10Toks : List AnyToken :=
  [ptok .KwInt "int", itok "main", ptok .OpenParen "(", ptok .CloseParen ")",
   ptok .OpenBrace "\x7b", ptok .KwReturn "return", ntok 2 "2", ptok .Semicolon ";",
   ptok .CloseBrace "\x7d"]

/-- The program the richer parser produces from c10Toks. -/
def c10Prog : Program :=
  match parseProgramF 100 c10Toks with
  | .ok p => p
  | .error _ =>
    ⟨⟨ptok .KwInt "int", aTok, ptok .OpenParen "(", ptok .CloseParen ")",
      ptok .OpenBrace "\x7b", [], ptok .CloseBrace "\x7d"⟩⟩

theorem c10_lvalue_error_unreachable_witness :
    dragonpyGenerate c10Prog ≠ .error .notAnLvalue :=
  c10_lvalue_error_unreachable 100 c10Toks c10Prog rfl
